import Mathlib

/-!
# minio-irods-gateway: a shallow embedding of `irods/gateway-irods.go`

The definitions below are a function-by-function transcription of the Go source.

Conventions of the embedding

* A Go `string` is a `GoString`, a list of Unicode characters: the model covers
  strings that hold valid UTF-8 text (S3 keys are UTF-8).  `len`, comparison,
  hashing and hex decoding work on the UTF-8 bytes (`goBytes`).
* Go `int` / `int64` are `Int`; the only places where the 64-bit range matters
  (`strconv.ParseInt`, `strconv.Atoi`) model it explicitly.
* A Go `(value, error)` result is an `Except GoError value`; a run-time panic is
  the distinguished error `GoError.panic`.
* The iRODS server reached through GoRODS is an explicit `Backend` value that the
  operations pass along; the rows a metadata query returns are an explicit input.
* Go's map iteration order is unspecified.  The order in which one call of
  `ListObjects` ranges over its map of common prefixes is a parameter
  (`Extern.rangeOrder`, any permutation of the keys), so a statement that
  compares two calls takes one `Extern` for each call.  The map of parts is
  iterated in insertion order: the source sorts the list afterwards, and the
  sorted list is proved to be the same for every iteration order.
* `crypto/md5` is modelled bit for bit (RFC 1321); the MIME table, the JSON codec
  and the checksum computed by the server are parameters (`Extern`).
-/

namespace Irods

/-! ## Go strings -/

/-- A Go string holding valid UTF-8 text, as its sequence of runes. -/
abbrev GoString := List Char

/-- UTF-8 encoding of one rune, as a list of byte values. -/
def utf8EncodeRune (c : Char) : List Nat :=
  let v := c.toNat
  if v < 0x80 then [v]
  else if v < 0x800 then [0xC0 + v / 64, 0x80 + v % 64]
  else if v < 0x10000 then [0xE0 + v / 4096, 0x80 + v / 64 % 64, 0x80 + v % 64]
  else [0xF0 + v / 262144, 0x80 + v / 4096 % 64, 0x80 + v / 64 % 64, 0x80 + v % 64]

/-- The bytes of a Go string, `[]byte(s)`. -/
def goBytes : GoString → List Nat
  | [] => []
  | c :: s => utf8EncodeRune c ++ goBytes s

/-- Go's `len(s)`: the number of bytes of the string. -/
def goLen (s : GoString) : Nat := (goBytes s).length

/-- Byte-wise lexicographic `<=`, the order of Go's string comparison. -/
def bytesLE : List Nat → List Nat → Bool
  | [], _ => true
  | _ :: _, [] => false
  | x :: xs, y :: ys => if x < y then true else if y < x then false else bytesLE xs ys

/-- Byte-wise lexicographic `<`. -/
def bytesLT : List Nat → List Nat → Bool
  | _, [] => false
  | [], _ :: _ => true
  | x :: xs, y :: ys => if x < y then true else if y < x then false else bytesLT xs ys

/-- Go's `a <= b` on strings. -/
def goStringLE (a b : GoString) : Bool := bytesLE (goBytes a) (goBytes b)

/-- Go's `a < b` on strings. -/
def goStringLT (a b : GoString) : Bool := bytesLT (goBytes a) (goBytes b)

/-- Go's `strings.HasPrefix(s, p)`. -/
def stringsHasPrefix (s p : GoString) : Bool := p.isPrefixOf s

/-- Go's `strings.TrimPrefix(s, p)`. -/
def stringsTrimPrefix (s p : GoString) : GoString :=
  if stringsHasPrefix s p then s.drop p.length else s

/-- Go's `strings.Contains(s, sub)`. -/
def stringsContains : GoString → GoString → Bool
  | [], sub => sub.isPrefixOf []
  | c :: s, sub => sub.isPrefixOf (c :: s) || stringsContains s sub

/-- Go's `strings.Split(s, sep)` for a one-character separator (the source only
splits on the separator `_`). -/
def stringsSplit (sep : Char) : GoString → List GoString
  | [] => [[]]
  | c :: s =>
    if c = sep then [] :: stringsSplit sep s
    else
      match stringsSplit sep s with
      | [] => [[c]]
      | h :: t => (c :: h) :: t

/-! ## `strconv` -/

/-- Decimal digits of a natural number, most significant first, with fuel. -/
def natDigits : Nat → Nat → GoString → GoString
  | 0, _, acc => acc
  | fuel + 1, n, acc =>
    if n < 10 then Char.ofNat (48 + n) :: acc
    else natDigits fuel (n / 10) (Char.ofNat (48 + n % 10) :: acc)

/-- Go's `strconv.Itoa`. -/
def strconvItoa (n : Int) : GoString :=
  if n < 0 then '-' :: natDigits (n.natAbs + 1) n.natAbs []
  else natDigits (n.natAbs + 1) n.natAbs []

/-- Outcome of a `strconv` parse: the value Go returns and the kind of error. -/
inductive NumErr where
  | ok
  | errSyntax
  | errRange
deriving DecidableEq, Repr

/-- The digit loop of `strconv.ParseUint(s, 10, 64)` over the bytes of `s`,
with its two overflow exits. -/
def parseUintLoop : List Nat → Nat → Nat × NumErr
  | [], n => (n, NumErr.ok)
  | c :: cs, n =>
    if 48 ≤ c ∧ c ≤ 57 then
      if n ≥ 1844674407370955162 then (18446744073709551615, NumErr.errRange)
      else
        let n1 := n * 10 + (c - 48)
        if n1 > 18446744073709551615 then (18446744073709551615, NumErr.errRange)
        else parseUintLoop cs n1
    else (0, NumErr.errSyntax)

/-- Go's `strconv.ParseUint(s, 10, 64)` on the bytes of `s`. -/
def strconvParseUint (s : List Nat) : Nat × NumErr :=
  match s with
  | [] => (0, NumErr.errSyntax)
  | _ :: _ => parseUintLoop s 0

/-- Go's `strconv.ParseInt(s, 10, 64)` on the bytes of `s`: the value returned
(also on error) and the error kind. -/
def parseIntBytes (s : List Nat) : Int × NumErr :=
  match s with
  | [] => (0, NumErr.errSyntax)
  | c :: cs =>
    let neg := decide (c = 45)
    let body := if c = 43 ∨ c = 45 then cs else c :: cs
    match strconvParseUint body with
    | (_, NumErr.errSyntax) => (0, NumErr.errSyntax)
    | (un, _) =>
      if !neg && decide (un ≥ 9223372036854775808) then (9223372036854775807, NumErr.errRange)
      else if neg && decide (un > 9223372036854775808) then (-9223372036854775808, NumErr.errRange)
      else (if neg then -(un : Int) else (un : Int), NumErr.ok)

/-- Go's `strconv.ParseInt(s, 10, 64)`. -/
def strconvParseInt (s : GoString) : Int × NumErr := parseIntBytes (goBytes s)

/-- Go's `strconv.Atoi(s)` on a 64-bit platform; its fast path for short
strings returns what `ParseInt(s, 10, 0)` returns. -/
def strconvAtoi (s : GoString) : Int × NumErr := strconvParseInt s

/-! ## `encoding/hex` -/

/-- One digit of `hex.EncodeToString`, from the table `0123456789abcdef`. -/
def hexDigit (n : Nat) : Char :=
  match n with
  | 0 => '0' | 1 => '1' | 2 => '2' | 3 => '3' | 4 => '4' | 5 => '5' | 6 => '6' | 7 => '7'
  | 8 => '8' | 9 => '9' | 10 => 'a' | 11 => 'b' | 12 => 'c' | 13 => 'd' | 14 => 'e' | _ => 'f'

/-- Go's `hex.EncodeToString`. -/
def hexEncodeToString : List Nat → GoString
  | [] => []
  | b :: bs => hexDigit (b / 16 % 16) :: hexDigit (b % 16) :: hexEncodeToString bs

/-- The value of a byte as a hexadecimal digit (`0-9`, `a-f`, `A-F`), as in
`hex.fromHexChar`. -/
def fromHexChar (c : Nat) : Option Nat :=
  if 48 ≤ c ∧ c ≤ 57 then some (c - 48)
  else if 97 ≤ c ∧ c ≤ 102 then some (c - 97 + 10)
  else if 65 ≤ c ∧ c ≤ 70 then some (c - 65 + 10)
  else none

/-- Go's `hex.Decode` on a byte list: `none` stands for `InvalidByteError` or
`ErrLength`. -/
def hexDecode : List Nat → Option (List Nat)
  | [] => some []
  | [_] => none
  | p :: q :: rest =>
    match fromHexChar p, fromHexChar q with
    | some a, some b =>
      match hexDecode rest with
      | some out => some ((a * 16 + b) :: out)
      | none => none
    | _, _ => none

/-- Go's `hex.DecodeString`. -/
def hexDecodeString (s : GoString) : Option (List Nat) := hexDecode (goBytes s)

/-! ## `crypto/md5` (RFC 1321) -/

/-- Per-round left-rotation amounts. -/
def md5Shift : List Nat :=
  [7, 12, 17, 22, 7, 12, 17, 22, 7, 12, 17, 22, 7, 12, 17, 22,
   5, 9, 14, 20, 5, 9, 14, 20, 5, 9, 14, 20, 5, 9, 14, 20,
   4, 11, 16, 23, 4, 11, 16, 23, 4, 11, 16, 23, 4, 11, 16, 23,
   6, 10, 15, 21, 6, 10, 15, 21, 6, 10, 15, 21, 6, 10, 15, 21]

/-- Per-round additive constants. -/
def md5Const : List Nat :=
  [0xd76aa478, 0xe8c7b756, 0x242070db, 0xc1bdceee, 0xf57c0faf, 0x4787c62a, 0xa8304613, 0xfd469501,
   0x698098d8, 0x8b44f7af, 0xffff5bb1, 0x895cd7be, 0x6b901122, 0xfd987193, 0xa679438e, 0x49b40821,
   0xf61e2562, 0xc040b340, 0x265e5a51, 0xe9b6c7aa, 0xd62f105d, 0x02441453, 0xd8a1e681, 0xe7d3fbc8,
   0x21e1cde6, 0xc33707d6, 0xf4d50d87, 0x455a14ed, 0xa9e3e905, 0xfcefa3f8, 0x676f02d9, 0x8d2a4c8a,
   0xfffa3942, 0x8771f681, 0x6d9d6122, 0xfde5380c, 0xa4beea44, 0x4bdecfa9, 0xf6bb4b60, 0xbebfbc70,
   0x289b7ec6, 0xeaa127fa, 0xd4ef3085, 0x04881d05, 0xd9d4d039, 0xe6db99e5, 0x1fa27cf8, 0xc4ac5665,
   0xf4292244, 0x432aff97, 0xab9423a7, 0xfc93a039, 0x655b59c3, 0x8f0ccc92, 0xffeff47d, 0x85845dd1,
   0x6fa87e4f, 0xfe2ce6e0, 0xa3014314, 0x4e0811a1, 0xf7537e82, 0xbd3af235, 0x2ad7d2bb, 0xeb86d391]

/-- Rotate a 32-bit word left. -/
def rotl32 (x c : Nat) : Nat := ((x <<< c) ||| (x >>> (32 - c))) % 4294967296

/-- Bitwise complement of a 32-bit word. -/
def not32 (x : Nat) : Nat := 4294967295 - x % 4294967296

/-- The four 32-bit chaining words of MD5. -/
structure MD5State where
  a : Nat
  b : Nat
  c : Nat
  d : Nat

/-- One of the 64 operations of the MD5 compression function. -/
def md5Step (m : List Nat) (st : MD5State) (i : Nat) : MD5State :=
  let f :=
    if i < 16 then (st.b &&& st.c) ||| (not32 st.b &&& st.d)
    else if i < 32 then (st.d &&& st.b) ||| (not32 st.d &&& st.c)
    else if i < 48 then st.b ^^^ st.c ^^^ st.d
    else st.c ^^^ (st.b ||| not32 st.d)
  let g :=
    if i < 16 then i
    else if i < 32 then (5 * i + 1) % 16
    else if i < 48 then (3 * i + 5) % 16
    else (7 * i) % 16
  let sum := (st.a + f + md5Const.getD i 0 + m.getD g 0) % 4294967296
  { a := st.d, b := (st.b + rotl32 sum (md5Shift.getD i 0)) % 4294967296, c := st.b, d := st.c }

/-- Little-endian 32-bit word at the head of a byte list. -/
def leWord (bs : List Nat) : Nat :=
  bs.getD 0 0 + 256 * bs.getD 1 0 + 65536 * bs.getD 2 0 + 16777216 * bs.getD 3 0

/-- The sixteen message words of a 64-byte block. -/
def wordsOfBlock (block : List Nat) : List Nat :=
  (List.range 16).map fun j => leWord (block.drop (4 * j))

/-- MD5 compression of one 64-byte block. -/
def md5Block (st : MD5State) (block : List Nat) : MD5State :=
  let r := (List.range 64).foldl (md5Step (wordsOfBlock block)) st
  { a := (st.a + r.a) % 4294967296, b := (st.b + r.b) % 4294967296,
    c := (st.c + r.c) % 4294967296, d := (st.d + r.d) % 4294967296 }

/-- The `k` low bytes of `n`, least significant first. -/
def leBytes (n : Nat) : Nat → List Nat
  | 0 => []
  | k + 1 => n % 256 :: leBytes (n / 256) k

/-- MD5 padding: a `0x80` byte, zeros up to 56 mod 64, the bit length on 8 bytes. -/
def md5Pad (msg : List Nat) : List Nat :=
  let zeros := (55 + 64 - msg.length % 64) % 64
  msg ++ [128] ++ List.replicate zeros 0 ++ leBytes (8 * msg.length % 18446744073709551616) 8

/-- Compress `n` consecutive 64-byte blocks. -/
def md5Blocks : Nat → MD5State → List Nat → MD5State
  | 0, st, _ => st
  | n + 1, st, bs => md5Blocks n (md5Block st (bs.take 64)) (bs.drop 64)

/-- The 16-byte MD5 digest of a byte list (`md5.New`, `Write`, `Sum(nil)`). -/
def md5Sum (msg : List Nat) : List Nat :=
  let p := md5Pad msg
  let r := md5Blocks (p.length / 64) ⟨0x67452301, 0xefcdab89, 0x98badcfe, 0x10325476⟩ p
  leBytes r.a 4 ++ leBytes r.b 4 ++ leBytes r.c 4 ++ leBytes r.d 4

/-- Source `getMD5Hash`: the hex-encoded MD5 digest of `text`. -/
def getMD5Hash (text : GoString) : GoString :=
  hexEncodeToString (md5Sum (goBytes text))

/-! ## Constants of the gateway -/

/-- Source constant `irodsMarkerPrefix`. -/
def irodsMarkerPrefix : GoString := "\x7bminio\x7d".toList

/-- The constant `minio.GatewayMinioSysTmp` of the minio package. -/
def GatewayMinioSysTmp : GoString := "minio.sys.tmp/".toList

/-- Source constant `irodsMultipartSubCol`. -/
def irodsMultipartSubCol : GoString := "multiparts".toList

/-- Source constant `irodsObjMetaAttr`. -/
def irodsObjMetaAttr : GoString := "minio_obj".toList

/-- Source constant `irodsMultipartMetaAttr`. -/
def irodsMultipartMetaAttr : GoString := "minio_multipart".toList

/-- Source `isIrodsMarker`: the marker carries the reserved `{minio}` prefix. -/
def isIrodsMarker (marker : GoString) : Bool := stringsHasPrefix marker irodsMarkerPrefix

/-! ## Errors and external collaborators -/

/-- The errors the gateway returns.  `panic` stands for a Go run-time panic. -/
inductive GoError where
  | malformedUploadID (uploadID : GoString)
  | objectNotFound (bucket object : GoString)
  | errorf (message : GoString)
  | numError (num : GoString) (kind : NumErr)
  | backend (message : GoString)
  | panic
deriving DecidableEq, Repr

deriving instance DecidableEq for Except

/-- One row of the `minio_list_objects` query: the five selected columns
`meta_attr_value, modify_ts, data_size, data_checksum, data_name`. -/
structure Row where
  metaValue : GoString
  modifyTs : GoString
  dataSize : GoString
  dataChecksum : GoString
  dataName : GoString
deriving DecidableEq, Repr

/-- Source type `irodsMultipartMetadata`; the Go map is an association list. -/
structure IrodsMultipartMetadata where
  Name : GoString
  Metadata : List (GoString × GoString)
deriving DecidableEq, Repr

/-- What the gateway takes from its surroundings during one call: the MIME
table of the host, the JSON codec, the checksum the iRODS server computes, and
the order in which the Go runtime ranges over the keys of a map during that
call (`rangeOrder`, given the keys in insertion order; any permutation). -/
structure Extern where
  mimeTypeByExtension : GoString → GoString
  jsonMarshal : IrodsMultipartMetadata → Except GoError (List Nat)
  jsonUnmarshal : List Nat → Except GoError IrodsMultipartMetadata
  chksum : List Nat → Except GoError GoString
  rangeOrder : List GoString → List GoString
  rangeOrder_perm : ∀ keys, (rangeOrder keys).Perm keys

/-- The scan of `filepath.Ext` from the end of the path; `acc` is the suffix
already passed. -/
def extLoop : GoString → GoString → GoString
  | [], _ => []
  | c :: r, acc =>
    if c = '/' then [] else if c = '.' then c :: acc else extLoop r (c :: acc)

/-- Go's `filepath.Ext`. -/
def filepathExt (path : GoString) : GoString := extLoop path.reverse []

/-- Source `getMime`. -/
def getMime (x : Extern) (objName : GoString) : GoString :=
  x.mimeTypeByExtension (filepathExt objName)

/-! ## Listing -/

/-- The fields of `minio.ObjectInfo` the gateway fills; `ModTime` is in seconds
since the epoch. -/
structure ObjectInfo where
  Bucket : GoString
  Name : GoString
  ModTime : Int
  Size : Int
  ETag : GoString
  ContentType : GoString
  ContentEncoding : GoString
deriving DecidableEq, Repr

/-- The fields of `minio.ListObjectsInfo`. -/
structure ListObjectsInfo where
  IsTruncated : Bool
  NextMarker : GoString
  Objects : List ObjectInfo
  Prefixes : List GoString
deriving DecidableEq, Repr

/-- The fields of `minio.ListObjectsV2Info` the gateway fills. -/
structure ListObjectsV2Info where
  IsTruncated : Bool
  ContinuationToken : GoString
  NextContinuationToken : GoString
  Objects : List ObjectInfo
  Prefixes : List GoString
deriving DecidableEq, Repr

/-- The loop `for pos, char := range blobName` of `ListObjects` that builds the
common prefix: `pos` is the byte offset of the current rune, `pfxLen` is
`len(prefix)`, `d0` is `[]rune(delimiter)[0]` and `acc` is `commonPrefix`. -/
def commonPrefixLoop (pfxLen : Nat) (d0 : Char) : Nat → GoString → GoString → GoString
  | _, [], acc => acc
  | pos, char :: rest, acc =>
    if pos < pfxLen then
      commonPrefixLoop pfxLen d0 (pos + (utf8EncodeRune char).length) rest acc
    else if char = d0 then acc ++ [char]
    else commonPrefixLoop pfxLen d0 (pos + (utf8EncodeRune char).length) rest (acc ++ [char])

/-- The assignment `commonPrefixes[k] = true` on the set of common prefixes. -/
def setInsert (set : List GoString) (k : GoString) : List GoString :=
  if k ∈ set then set else set ++ [k]

/-- The accumulators of the row loop of `ListObjects`. -/
structure ListAcc where
  objects : List ObjectInfo
  commonPrefixes : List GoString
deriving DecidableEq, Repr

/-- The body of the row loop of `ListObjects` (after the `maxKeys` test) for
one row `blob`. -/
def listObjectsRow (x : Extern) (bucket pfx marker delimiter : GoString) (blob : Row)
    (acc : ListAcc) : ListAcc :=
  let metaPrefix := bucket ++ ":::::".toList
  let blobName := stringsTrimPrefix blob.metaValue metaPrefix
  let blobUnixTime := (strconvParseInt blob.modifyTs).1
  let blobSize := (strconvParseInt blob.dataSize).1
  let blobMD5 := blob.dataChecksum
  let grouped : Option GoString :=
    match delimiter with
    | [] => none
    | d0 :: _ =>
      if stringsContains blobName delimiter then
        let commonPrefix := commonPrefixLoop (goLen pfx) d0 0 blobName pfx
        let blobWithoutPrefix := stringsTrimPrefix blobName pfx
        if stringsContains blobWithoutPrefix delimiter then some commonPrefix else none
      else none
  match grouped with
  | some commonPrefix =>
    { acc with commonPrefixes := setInsert acc.commonPrefixes commonPrefix }
  | none =>
    if delimiter = [] ∧ stringsHasPrefix blobName GatewayMinioSysTmp = true then acc
    else if isIrodsMarker marker = false ∧ goStringLE blobName marker = true then acc
    else
      { acc with objects := acc.objects ++
          [{ Bucket := bucket, Name := blobName, ModTime := blobUnixTime, Size := blobSize,
             ETag := getMD5Hash blobMD5 ++ "-1".toList, ContentType := getMime x blobName,
             ContentEncoding := [] }] }

/-- The row loop of `ListObjects`, with its `break` once `maxKeys` objects are
collected. -/
def listObjectsLoop (x : Extern) (bucket pfx marker delimiter : GoString) (maxKeys : Int) :
    List Row → ListAcc → ListAcc
  | [], acc => acc
  | blob :: rest, acc =>
    if (acc.objects.length : Int) ≥ maxKeys then acc
    else
      listObjectsLoop x bucket pfx marker delimiter maxKeys rest
        (listObjectsRow x bucket pfx marker delimiter blob acc)

/-- The loop `for k := range commonPrefixes` of `ListObjects`: the keys are
visited in the order the runtime chooses for this call. -/
def listObjectsPrefixes (x : Extern) (marker : GoString) (commonPrefixes : List GoString) :
    List GoString :=
  (x.rangeOrder commonPrefixes).filter fun k =>
    !(decide (k = GatewayMinioSysTmp) || (!isIrodsMarker marker && goStringLE k marker))

/-- Source `ListObjects`.  `objs` is what the metadata query returned (`none`
when the query failed). -/
def ListObjects (x : Extern) (objs : Option (List Row)) (bucket pfx marker delimiter : GoString)
    (maxKeys : Int) : Except GoError ListObjectsInfo :=
  match objs with
  | none => Except.error (GoError.errorf ("Error occured listing objects in ".toList ++ bucket))
  | some rows =>
    let acc := listObjectsLoop x bucket pfx marker delimiter maxKeys rows ⟨[], []⟩
    Except.ok
      { IsTruncated := false, NextMarker := [], Objects := acc.objects,
        Prefixes := listObjectsPrefixes x marker acc.commonPrefixes }

/-- Source `ListObjectsV2`. -/
def ListObjectsV2 (x : Extern) (objs : Option (List Row))
    (bucket pfx continuationToken delimiter : GoString) (maxKeys : Int) (_fetchOwner : Bool)
    (startAfter : GoString) : Except GoError ListObjectsV2Info :=
  let marker := if continuationToken = [] then startAfter else continuationToken
  match ListObjects x objs bucket pfx marker delimiter maxKeys with
  | Except.error err => Except.error err
  | Except.ok resultV1 =>
    Except.ok
      { Objects := resultV1.Objects, Prefixes := resultV1.Prefixes,
        ContinuationToken := continuationToken,
        NextContinuationToken := resultV1.NextMarker,
        IsTruncated := decide (resultV1.NextMarker ≠ []) }

/-- Source `GetObjectInfo`.  `objs` is what the metadata query for the exact
key returned (`none` when the query failed); the loop over the rows returns at
its first iteration. -/
def GetObjectInfo (x : Extern) (objs : Option (List Row)) (bucket _object : GoString) :
    Except GoError ObjectInfo :=
  match objs with
  | none => Except.error (GoError.errorf ("Error occured listing object in ".toList ++ bucket))
  | some [] => Except.error (GoError.errorf ("Error occured finding object in ".toList ++ bucket))
  | some (blob :: _) =>
    let metaPrefix := bucket ++ ":::::".toList
    let blobName := stringsTrimPrefix blob.metaValue metaPrefix
    let blobUnixTime := (strconvParseInt blob.modifyTs).1
    let blobSize := (strconvParseInt blob.dataSize).1
    let blobMD5 := blob.dataChecksum
    Except.ok
      { Bucket := bucket, Name := blobName, ModTime := blobUnixTime, Size := blobSize,
        ETag := getMD5Hash blobMD5 ++ "-1".toList, ContentType := getMime x blobName,
        ContentEncoding := [] }

/-! ## The iRODS backend reached through GoRODS -/

/-- A data object of the zone: its collection, name, bytes and attached
attribute/value pairs. -/
structure DataObj where
  col : GoString
  name : GoString
  content : List Nat
  attrs : List (GoString × GoString)
  modTime : Int
deriving DecidableEq, Repr

/-- The absolute path of a data object. -/
def DataObj.path (o : DataObj) : GoString := o.col ++ "/".toList ++ o.name

/-- The GoRODS calls the gateway makes, each with the path it addresses. -/
inductive BackendCall where
  | dataObject (path : GoString)
  | collection (path : GoString)
  | findCol (path : GoString)
  | createDataObj (path : GoString)
  | findObj (path : GoString)
  | each (path : GoString)
  | read (path : GoString)
  | write (path : GoString)
  | addMeta (path : GoString)
  | chksum (path : GoString)
  | close (path : GoString)
  | destroy (path : GoString)
deriving DecidableEq, Repr

/-- The state of the backend: the mount collection `col.Path()`, the existing
collections, the data objects, the server clock and the log of calls made. -/
structure Backend where
  root : GoString
  cols : List GoString
  objs : List DataObj
  clock : Int
  calls : List BackendCall
deriving DecidableEq, Repr

/-- Record one call in the log. -/
def Backend.log (s : Backend) (c : BackendCall) : Backend :=
  { s with calls := s.calls ++ [c] }

/-- The data object stored at `path`, if any. -/
def Backend.lookup (s : Backend) (path : GoString) : Option DataObj :=
  s.objs.find? fun o => decide (o.path = path)

/-- GoRODS `Connection.DataObject(path)`. -/
def Backend.dataObject (s : Backend) (path : GoString) : Option DataObj × Backend :=
  (s.lookup path, s.log (BackendCall.dataObject path))

/-- GoRODS `Connection.Collection(path)`: whether the collection exists. -/
def Backend.collection (s : Backend) (path : GoString) : Bool × Backend :=
  (decide (path ∈ s.cols), s.log (BackendCall.collection path))

/-- GoRODS `Collection.FindCol(name)` on the mount collection. -/
def Backend.findCol (s : Backend) (name : GoString) : Bool × Backend :=
  (decide (s.root ++ "/".toList ++ name ∈ s.cols),
    s.log (BackendCall.findCol (s.root ++ "/".toList ++ name)))

/-- GoRODS `Collection.CreateDataObj`: a new empty object named `name` in the
collection `col`. -/
def Backend.createDataObj (s : Backend) (col name : GoString) : DataObj × Backend :=
  let o : DataObj := { col := col, name := name, content := [], attrs := [], modTime := s.clock }
  (o, { s with objs := (s.objs.filter fun p => decide (p.path ≠ o.path)) ++ [o],
               calls := s.calls ++ [BackendCall.createDataObj o.path] })

/-- GoRODS `Collection.FindObj(name)`: the data object named `name` in `col`. -/
def Backend.findObj (s : Backend) (col name : GoString) : Option DataObj × Backend :=
  (s.objs.find? fun o => decide (o.col = col ∧ o.name = name),
    s.log (BackendCall.findObj (col ++ "/".toList ++ name)))

/-- Apply `f` to the object stored at `path`. -/
def Backend.update (s : Backend) (path : GoString) (f : DataObj → DataObj) : Backend :=
  { s with objs := s.objs.map fun o => if o.path = path then f o else o }

/-- Writing a whole stream from offset 0 (`io.Copy` into `Writer()`, `Write`). -/
def Backend.write (s : Backend) (path : GoString) (data : List Nat) : Backend :=
  (s.update path fun o => { o with content := data, modTime := s.clock }).log
    (BackendCall.write path)

/-- GoRODS `DataObj.WriteBytes`: write at the current offset, which is the end
of what was written so far. -/
def Backend.writeBytes (s : Backend) (path : GoString) (data : List Nat) : Backend :=
  (s.update path fun o => { o with content := o.content ++ data, modTime := s.clock }).log
    (BackendCall.write path)

/-- GoRODS `DataObj.Read`: the bytes of the object at `path`. -/
def Backend.read (s : Backend) (path : GoString) : Option (List Nat) × Backend :=
  ((s.lookup path).map fun o => o.content, s.log (BackendCall.read path))

/-- GoRODS `AddMeta`: attach one attribute/value pair. -/
def Backend.addMeta (s : Backend) (path attr value : GoString) : Backend :=
  (s.update path fun o => { o with attrs := o.attrs ++ [(attr, value)] }).log
    (BackendCall.addMeta path)

/-- GoRODS `Destroy` on a data object. -/
def Backend.destroy (s : Backend) (path : GoString) : Backend :=
  { s with objs := s.objs.filter fun o => decide (o.path ≠ path),
           calls := s.calls ++ [BackendCall.destroy path] }

/-! ## Multipart uploads -/

/-- Source `getIrodsMetadataObjectName`: the template
`multipart_v1_%s_%x_irods.json`; `%x` of a string is the hex of its bytes. -/
def getIrodsMetadataObjectName (objectName uploadID : GoString) : GoString :=
  "multipart_v1_".toList ++ uploadID ++ "_".toList ++
    hexEncodeToString (goBytes (getMD5Hash objectName)) ++ "_irods.json".toList

/-- Source `checkIrodsUploadID`: `none` is the `nil` error. -/
def checkIrodsUploadID (uploadID : GoString) : Option GoError :=
  if goLen uploadID ≠ 16 then some (GoError.malformedUploadID uploadID)
  else
    match hexDecodeString uploadID with
    | none => some (GoError.malformedUploadID uploadID)
    | some _ => none

/-- Source `getMetaObjectInBucket`. -/
def getMetaObjectInBucket (s : Backend) (bucket uploadID metaObject : GoString) :
    Option DataObj × Backend :=
  let objectName := getIrodsMetadataObjectName metaObject uploadID
  s.dataObject (s.root ++ "/".toList ++ bucket ++ "/".toList ++ objectName)

/-- Source `checkUploadIDExists`: `none` is the `nil` error. -/
def checkUploadIDExists (s : Backend) (bucketName objectName uploadID : GoString) :
    Option GoError × Backend :=
  match getMetaObjectInBucket s bucketName uploadID objectName with
  | (none, s1) => (some (GoError.objectNotFound bucketName objectName), s1)
  | (some _, s1) => (none, s1)

/-- Outcome of `io.ReadFull(rand.Reader, id[:])`: the 8-byte buffer, the count
read and whether an error was returned. -/
structure RandRead where
  id : List Nat
  n : Int
  err : Option GoError
deriving DecidableEq, Repr

/-- Source `getIrodsUploadID`: the id and the error (`none` is `nil`). -/
def getIrodsUploadID (r : RandRead) : GoString × Option GoError :=
  match r.err with
  | some err => ([], some err)
  | none =>
    if r.n ≠ 8 then
      ([], some (GoError.errorf ("Unexpected random data size. Expected: 8, read: ".toList ++
        strconvItoa r.n ++ ")".toList)))
    else (hexEncodeToString (r.id.take 8), none)

/-- Source `createRodsObj`. -/
def createRodsObj (s : Backend) (bucket object : GoString) (isListableObj : Bool) :
    Except GoError DataObj × Backend :=
  match s.findCol bucket with
  | (false, s1) => (Except.error (GoError.errorf ("Can't find bucket ".toList ++ bucket)), s1)
  | (true, s1) =>
    let objName := if isListableObj then getMD5Hash object else object
    match s1.createDataObj (s.root ++ "/".toList ++ bucket) objName with
    | (destObj, s2) =>
      if isListableObj then
        (Except.ok destObj,
          s2.addMeta destObj.path irodsObjMetaAttr (bucket ++ ":::::".toList ++ object))
      else (Except.ok destObj, s2)

/-- Source `NewMultipartUpload`. -/
def NewMultipartUpload (x : Extern) (s : Backend) (r : RandRead) (bucket object : GoString)
    (metadata : List (GoString × GoString)) : Except GoError GoString × Backend :=
  match getIrodsUploadID r with
  | (_, some err) => (Except.error err, s)
  | (uploadID, none) =>
    let metadataObject := getIrodsMetadataObjectName object uploadID
    match x.jsonMarshal { Name := object, Metadata := metadata } with
    | Except.error jErr => (Except.error jErr, s)
    | Except.ok jsonData =>
      match createRodsObj s bucket metadataObject false with
      | (Except.error cErr, s1) => (Except.error cErr, s1)
      | (Except.ok rodsObj, s1) => (Except.ok uploadID, s1.write rodsObj.path jsonData)

/-- Source `getMultipartCol`: the path of the bucket's multipart
sub-collection when it exists. -/
def getMultipartCol (s : Backend) (bucket : GoString) : Option GoString × Backend :=
  let mpColPath := s.root ++ "/".toList ++ bucket ++ "/".toList ++ irodsMultipartSubCol
  match s.collection mpColPath with
  | (true, s1) => (some mpColPath, s1)
  | (false, s1) => (none, s1)

/-- The fields of `minio.PartInfo`; `LastModified` 0 is the unset time. -/
structure PartInfo where
  PartNumber : Int
  LastModified : Int
  ETag : GoString
  Size : Int
deriving DecidableEq, Repr

/-- The reader handed to `PutObjectPart`: the bytes it delivers and the MD5 hex
string announced by the client (`MD5HexString()`). -/
structure HashReader where
  content : List Nat
  md5Hex : GoString
deriving DecidableEq, Repr

/-- The name under which `PutObjectPart` stores a part:
`getMD5Hash(object) + "_" + strconv.Itoa(partID)`. -/
def partObjName (object : GoString) (partID : Int) : GoString :=
  getMD5Hash object ++ "_".toList ++ strconvItoa partID

/-- Source `PutObjectPart`.  `genETag` is what `minio.GenETag()` would draw and
`now` what `minio.UTCNow()` would return. -/
def PutObjectPart (s : Backend) (bucket object uploadID : GoString) (partID : Int)
    (data : HashReader) (genETag : GoString) (now : Int) : Except GoError PartInfo × Backend :=
  match checkUploadIDExists s bucket object uploadID with
  | (some err, s1) => (Except.error err, s1)
  | (none, s1) =>
    match checkIrodsUploadID uploadID with
    | some err => (Except.error err, s1)
    | none =>
      let etag := if data.md5Hex = [] then genETag else data.md5Hex
      match getMultipartCol s1 bucket with
      | (none, s2) => (Except.error (GoError.backend "collection not found".toList), s2)
      | (some mpCol, s2) =>
        match s2.createDataObj mpCol (partObjName object partID) with
        | (partObj, s3) =>
          let s4 := s3.write partObj.path data.content
          let s5 := s4.log (BackendCall.close partObj.path)
          let s6 := s5.addMeta partObj.path irodsMultipartMetaAttr uploadID
          (Except.ok { PartNumber := partID, ETag := etag, LastModified := now,
                       Size := data.content.length }, s6)

/-- The fields of `minio.ListPartsInfo` the gateway fills. -/
structure ListPartsInfo where
  Bucket : GoString
  Object : GoString
  UploadID : GoString
  PartNumberMarker : Int
  NextPartNumberMarker : Int
  MaxParts : Int
  IsTruncated : Bool
  Parts : List PartInfo
deriving DecidableEq, Repr

/-- The assignment `partsMap[k] = v` on a Go map kept as an association list. -/
def mapInsert (m : List (Int × PartInfo)) (k : Int) (v : PartInfo) : List (Int × PartInfo) :=
  match m with
  | [] => [(k, v)]
  | (k', v') :: rest => if k' = k then (k, v) :: rest else (k', v') :: mapInsert rest k v

/-- The loop of `ListObjectParts` over the query rows that fills `partsMap`.
`strings.Split(partObjName, "_")[1]` panics when the name has no `_`. -/
def partsMapLoop : List Row → List (Int × PartInfo) → Except GoError (List (Int × PartInfo))
  | [], partsMap => Except.ok partsMap
  | partSlc :: rest, partsMap =>
    let partSize := (strconvParseInt partSlc.dataSize).1
    let partMD5 := partSlc.dataChecksum
    let partObjName := partSlc.dataName
    match stringsSplit '_' partObjName with
    | _ :: second :: _ =>
      match strconvAtoi second with
      | (partNumber, NumErr.ok) =>
        partsMapLoop rest (mapInsert partsMap partNumber
          { PartNumber := partNumber, LastModified := 0, Size := partSize,
            ETag := getMD5Hash partMD5 ++ "-1".toList })
      | (_, kind) => Except.error (GoError.numError second kind)
    | _ => Except.error GoError.panic

/-- The call `sort.Slice(parts, ...)` ordering by `PartNumber`. -/
def sortParts (parts : List PartInfo) : List PartInfo :=
  parts.insertionSort fun a b => a.PartNumber ≤ b.PartNumber

/-- The marker loop of `ListObjectParts`: advances `i` over the parts up to and
including the one whose number equals the marker. -/
def skipToMarker (partNumberMarker : Int) : List PartInfo → Nat → Nat
  | [], i => i
  | part :: rest, i =>
    if part.PartNumber = partNumberMarker then i + 1
    else skipToMarker partNumberMarker rest (i + 1)

/-- The state of the page loop of `ListObjectParts`. -/
structure PageAcc where
  parts : List PartInfo
  partsCount : Int
  i : Nat
deriving DecidableEq, Repr

/-- The loop `for partsCount < maxParts && i < len(parts)`; the first argument
is `parts[i:]`. -/
def pageLoop (maxParts : Int) : List PartInfo → PageAcc → PageAcc
  | [], acc => acc
  | part :: rest, acc =>
    if acc.partsCount < maxParts then
      pageLoop maxParts rest
        { parts := acc.parts ++ [part], partsCount := acc.partsCount + 1, i := acc.i + 1 }
    else acc

/-- The part of `ListObjectParts` that follows the query: `partsQ` are the rows
the query returned. -/
def listPartsOfRows (partsQ : List Row) (bucket object uploadID : GoString)
    (partNumberMarker maxParts : Int) : Except GoError ListPartsInfo :=
  match partsMapLoop partsQ [] with
  | Except.error cErr => Except.error cErr
  | Except.ok partsMap =>
    let parts := sortParts (partsMap.map fun kv => kv.2)
    let i := if partNumberMarker ≠ 0 then skipToMarker partNumberMarker parts 0 else 0
    let page := pageLoop maxParts (parts.drop i) { parts := [], partsCount := 0, i := i }
    if page.i < parts.length then
      if page.partsCount ≠ 0 then
        match page.parts.get? (page.partsCount - 1).toNat with
        | none => Except.error GoError.panic
        | some last =>
          Except.ok
            { Bucket := bucket, Object := object, UploadID := uploadID, MaxParts := maxParts,
              Parts := page.parts, IsTruncated := true,
              NextPartNumberMarker := last.PartNumber, PartNumberMarker := partNumberMarker }
      else
        Except.ok
          { Bucket := bucket, Object := object, UploadID := uploadID, MaxParts := maxParts,
            Parts := page.parts, IsTruncated := true,
            NextPartNumberMarker := 0, PartNumberMarker := partNumberMarker }
    else
      Except.ok
        { Bucket := bucket, Object := object, UploadID := uploadID, MaxParts := maxParts,
          Parts := page.parts, IsTruncated := false,
          NextPartNumberMarker := 0, PartNumberMarker := partNumberMarker }

/-- Source `ListObjectParts`.  `partsQ` is what the query for the rows tagged
with the upload id returns (`none` when the query fails). -/
def ListObjectParts (s : Backend) (partsQ : Option (List Row)) (bucket object uploadID : GoString)
    (partNumberMarker maxParts : Int) : Except GoError ListPartsInfo × Backend :=
  match checkUploadIDExists s bucket object uploadID with
  | (some err, s1) => (Except.error err, s1)
  | (none, s1) =>
    match partsQ with
    | none => (Except.error (GoError.backend "query failed".toList), s1)
    | some rows => (listPartsOfRows rows bucket object uploadID partNumberMarker maxParts, s1)

/-- The iterator `mpCol.Each` runs in `AbortMultipartUpload`: destroy every
object whose name starts with `objHash`. -/
def abortEach (objHash : GoString) : List DataObj → Backend → Backend
  | [], s => s
  | partObj :: rest, s =>
    if stringsHasPrefix partObj.name objHash then abortEach objHash rest (s.destroy partObj.path)
    else abortEach objHash rest s

/-- Source `AbortMultipartUpload`: `none` is the `nil` error. -/
def AbortMultipartUpload (s : Backend) (bucket object uploadID : GoString) :
    Option GoError × Backend :=
  match checkUploadIDExists s bucket object uploadID with
  | (some err, s1) => (some err, s1)
  | (none, s1) =>
    match getMetaObjectInBucket s1 bucket uploadID object with
    | (none, s2) => (some (GoError.backend "data object not found".toList), s2)
    | (some rodsObj, s2) =>
      match getMultipartCol s2 bucket with
      | (none, s3) => (some (GoError.backend "collection not found".toList), s3)
      | (some mpCol, s3) =>
        let objHash := getMD5Hash object
        let s4 := s3.log (BackendCall.each mpCol)
        let s5 := abortEach objHash (s4.objs.filter fun o => decide (o.col = mpCol)) s4
        (none, s5.destroy rodsObj.path)

/-- The type `minio.CompletePart`. -/
structure CompletePart where
  PartNumber : Int
  ETag : GoString
deriving DecidableEq, Repr

/-- The name `CompleteMultipartUpload` looks a part up by:
`fmt.Sprintf("%s_%i", getMD5Hash(object), cPart.PartNumber)`.  Go's `fmt` has
no verb `%i`: for an `int` operand it prints `%!i(int=N)`. -/
def completePartName (object : GoString) (partNumber : Int) : GoString :=
  getMD5Hash object ++ "_".toList ++ "%!i(int=".toList ++ strconvItoa partNumber ++ ")".toList

/-- The call `sort.Sort(up)` on `minio.CompletedParts`, ordering by `PartNumber`. -/
def sortCompletedParts (up : List CompletePart) : List CompletePart :=
  up.insertionSort fun a b => a.PartNumber ≤ b.PartNumber

/-- The loop of `CompleteMultipartUpload` that reads each part, appends it to
the final object and destroys it: `none` when every part was found. -/
def completeParts (object mpCol finalPath : GoString) :
    List CompletePart → Backend → Option GoError × Backend
  | [], s => (none, s)
  | cPart :: rest, s =>
    match s.findObj mpCol (completePartName object cPart.PartNumber) with
    | (none, s1) =>
      (some (GoError.errorf ("Unable to locate multipart object ".toList ++ object ++
        " ".toList ++ strconvItoa cPart.PartNumber)), s1)
    | (some partObj, s1) =>
      match s1.read partObj.path with
      | (none, s2) => (some (GoError.backend "read failed".toList), s2)
      | (some data, s2) =>
        completeParts object mpCol finalPath rest
          ((s2.writeBytes finalPath data).destroy partObj.path)

/-- The loop of `CompleteMultipartUpload` that attaches the stored user
metadata to the final object. -/
def addUserMeta (finalPath : GoString) : List (GoString × GoString) → Backend → Backend
  | [], s => s
  | (k, v) :: rest, s =>
    addUserMeta finalPath rest (s.addMeta finalPath ("minio_meta_".toList ++ k) v)

/-- The part of `CompleteMultipartUpload` that runs once the final object is
created (before the deferred `finalObj.Close()`). -/
def completeFinal (x : Extern) (s : Backend) (bucket object mpCol : GoString)
    (metadata : IrodsMultipartMetadata) (finalObj : DataObj) (uploadedParts : List CompletePart) :
    Except GoError ObjectInfo × Backend :=
  match completeParts object mpCol finalObj.path (sortCompletedParts uploadedParts) s with
  | (some err, s1) => (Except.error err, s1)
  | (none, s1) =>
    let s2 := addUserMeta finalObj.path metadata.Metadata s1
    let stored := s2.lookup finalObj.path
    let bytes := (stored.map fun o => o.content).getD []
    let chkSum := match x.chksum bytes with
      | Except.ok c => c
      | Except.error _ => []
    (Except.ok
      { Bucket := bucket, Name := object,
        ModTime := (stored.map fun o => o.modTime).getD 0,
        Size := bytes.length,
        ETag := getMD5Hash chkSum ++ "-1".toList,
        ContentType := getMime x object, ContentEncoding := [] },
      s2.log (BackendCall.chksum finalObj.path))

/-- The part of `CompleteMultipartUpload` that runs once the side-object is
located (before the deferred `metaObj.Destroy()`). -/
def completeAfterMeta (x : Extern) (s : Backend) (bucket object : GoString) (metaObj : DataObj)
    (uploadedParts : List CompletePart) : Except GoError ObjectInfo × Backend :=
  match s.read metaObj.path with
  | (metaBytes, s1) =>
    let parsed : Except GoError IrodsMultipartMetadata :=
      match metaBytes with
      | some b => x.jsonUnmarshal b
      | none => Except.ok { Name := [], Metadata := [] }
    match parsed with
    | Except.error pErr => (Except.error pErr, s1)
    | Except.ok metadata =>
      match getMultipartCol s1 bucket with
      | (none, s2) => (Except.error (GoError.backend "collection not found".toList), s2)
      | (some mpCol, s2) =>
        match createRodsObj s2 bucket object true with
        | (Except.error fErr, s3) => (Except.error fErr, s3)
        | (Except.ok finalObj, s3) =>
          match completeFinal x s3 bucket object mpCol metadata finalObj uploadedParts with
          | (res, s4) => (res, s4.log (BackendCall.close finalObj.path))

/-- Source `CompleteMultipartUpload`. -/
def CompleteMultipartUpload (x : Extern) (s : Backend) (bucket object uploadID : GoString)
    (uploadedParts : List CompletePart) : Except GoError ObjectInfo × Backend :=
  match checkUploadIDExists s bucket object uploadID with
  | (some err, s1) => (Except.error err, s1)
  | (none, s1) =>
    match checkIrodsUploadID uploadID with
    | some err => (Except.error err, s1)
    | none =>
      match getMetaObjectInBucket s1 bucket uploadID object with
      | (none, s2) => (Except.error (GoError.backend "data object not found".toList), s2)
      | (some metaObj, s2) =>
        match completeAfterMeta x s2 bucket object metaObj uploadedParts with
        | (res, s3) => (res, s3.destroy metaObj.path)

/-! ## Vocabulary of the statements -/

/-- A hexadecimal digit: `0-9`, `a-f` or `A-F`. -/
def isHexDigit (c : Char) : Bool :=
  (48 ≤ c.toNat && c.toNat ≤ 57) || (97 ≤ c.toNat && c.toNat ≤ 102) ||
    (65 ≤ c.toNat && c.toNat ≤ 70)

/-- The logical key of a result row: the value of the search attribute without
the `bucket:::::` part, the `blobName` of `ListObjects`. -/
def rowKey (bucket : GoString) (blob : Row) : GoString :=
  stringsTrimPrefix blob.metaValue (bucket ++ ":::::".toList)

/-- The object `ListObjects` and `GetObjectInfo` build from a result row. -/
def rowObject (x : Extern) (bucket : GoString) (blob : Row) : ObjectInfo :=
  { Bucket := bucket, Name := rowKey bucket blob, ModTime := (strconvParseInt blob.modifyTs).1,
    Size := (strconvParseInt blob.dataSize).1,
    ETag := getMD5Hash blob.dataChecksum ++ "-1".toList,
    ContentType := getMime x (rowKey bucket blob), ContentEncoding := [] }

/-- Whether a row is listed individually by a recursive listing with no marker:
its key is non-empty and outside the reserved `minio.sys.tmp/` namespace. -/
def rowListed (bucket : GoString) (r : Row) : Bool :=
  !stringsHasPrefix (rowKey bucket r) GatewayMinioSysTmp && decide (rowKey bucket r ≠ [])

/-- A host whose MIME table is empty, whose JSON codec stores the target key
only, whose server checksum is the hex MD5 of the bytes, and a call in which
the runtime ranges over a map in insertion order. -/
def sampleExtern : Extern :=
  { mimeTypeByExtension := fun _ => [],
    jsonMarshal := fun m => Except.ok (goBytes m.Name),
    jsonUnmarshal := fun _ => Except.ok { Name := [], Metadata := [] },
    chksum := fun b => Except.ok (hexEncodeToString (md5Sum b)),
    rangeOrder := fun keys => keys,
    rangeOrder_perm := fun keys => List.Perm.refl keys }

/-- The same host as `sampleExtern`, in a call in which the runtime ranges over
a map in the reverse of the insertion order. -/
def sampleExternReversed : Extern :=
  { mimeTypeByExtension := fun _ => [],
    jsonMarshal := fun m => Except.ok (goBytes m.Name),
    jsonUnmarshal := fun _ => Except.ok { Name := [], Metadata := [] },
    chksum := fun b => Except.ok (hexEncodeToString (md5Sum b)),
    rangeOrder := fun keys => keys.reverse,
    rangeOrder_perm := fun keys => List.reverse_perm keys }

/-- A result row for `key` in `bucket` with the given size column. -/
def sampleRow (bucket key size : GoString) : Row :=
  { metaValue := bucket ++ ":::::".toList ++ key, modifyTs := "1530000000".toList,
    dataSize := size, dataChecksum := "sha2:abc".toList, dataName := getMD5Hash key }

/-- The part number `ListObjectParts` reads from the name of a part object:
the second `_`-separated field, converted with `strconv.Atoi`. -/
def partNumberOfName (name : GoString) : Option Int :=
  match stringsSplit '_' name with
  | _ :: second :: _ =>
    match strconvAtoi second with
    | (partNumber, NumErr.ok) => some partNumber
    | _ => none
  | _ => none

/-- The descriptor `ListObjectParts` builds from a query row, when the name of
the part object is well formed. -/
def rowPart (row : Row) : Option PartInfo :=
  (partNumberOfName row.dataName).map fun n =>
    { PartNumber := n, LastModified := 0, Size := (strconvParseInt row.dataSize).1,
      ETag := getMD5Hash row.dataChecksum ++ "-1".toList }

/-- The last descriptor of the list that carries part number `n`. -/
def lastWithNumber (ps : List PartInfo) (n : Int) : Option PartInfo :=
  ps.reverse.find? fun p => decide (p.PartNumber = n)

/-- The reference list of the specification: for each part number that occurs,
the last descriptor carrying it, in ascending order of part number. -/
def referenceParts (ps : List PartInfo) : List PartInfo :=
  (((ps.map fun p => p.PartNumber).dedup).insertionSort fun a b => a ≤ b).filterMap
    (lastWithNumber ps)

/-- Reading `partsMap[k]` from a Go map kept as an association list. -/
def mapGet (m : List (Int × PartInfo)) (k : Int) : Option PartInfo :=
  (m.find? fun kv => decide (kv.1 = k)).map Prod.snd

/-- The map `ListObjectParts` has built after reading the descriptors `ps` in
order, starting from the map `m`. -/
def buildMap (ps : List PartInfo) (m : List (Int × PartInfo)) : List (Int × PartInfo) :=
  ps.foldl (fun acc p => mapInsert acc p.PartNumber p) m

/-- A query row for part `n` of an object whose hashed name is `hash`. -/
def samplePartRow (hash : GoString) (n : Int) (size : GoString) : Row :=
  { metaValue := "01020304050607ff".toList, modifyTs := "1530000000".toList, dataSize := size,
    dataChecksum := "sha2:abc".toList, dataName := hash ++ "_".toList ++ strconvItoa n }

/-- A zone mounted at `/tempZone/home/minio` that holds the bucket `b1` with
its multipart sub-collection and no data object. -/
def sampleBackend : Backend :=
  { root := "/tempZone/home/minio".toList,
    cols := ["/tempZone/home/minio/b1".toList, "/tempZone/home/minio/b1/multiparts".toList],
    objs := [], clock := 1530000000, calls := [] }

/-- The backend after `NewMultipartUpload` for key `big.bin` in bucket `b1`,
the random source having delivered the bytes `01 02 03 04 05 06 07 ff`. -/
def sampleInitiated : Backend :=
  (NewMultipartUpload sampleExtern sampleBackend ⟨[1, 2, 3, 4, 5, 6, 7, 255], 8, none⟩
    "b1".toList "big.bin".toList []).2

/-- The upload id `NewMultipartUpload` returned in `sampleInitiated`. -/
def sampleUploadID : GoString := "01020304050607ff".toList

/-- The backend after part 2 (`world`) and then part 1 (`hello`) were uploaded
with `PutObjectPart` under the upload of `sampleInitiated`. -/
def sampleUploaded : Backend :=
  (PutObjectPart
    (PutObjectPart sampleInitiated "b1".toList "big.bin".toList sampleUploadID 2
      ⟨goBytes "world".toList, []⟩ "etag2".toList 1530000001).2
    "b1".toList "big.bin".toList sampleUploadID 1
    ⟨goBytes "hello".toList, []⟩ "etag1".toList 1530000002).2

/-- The path of the side-object of the upload `uploadID` of key `object`, the
path `getMetaObjectInBucket` looks up. -/
def sideObjectPath (root bucket object uploadID : GoString) : GoString :=
  root ++ "/".toList ++ bucket ++ "/".toList ++ getIrodsMetadataObjectName object uploadID

/-- The path of the multipart sub-collection of a bucket. -/
def multipartColPath (root bucket : GoString) : GoString :=
  root ++ "/".toList ++ bucket ++ "/".toList ++ irodsMultipartSubCol

/-- The text of `s` up to and including the first occurrence of `delimiter`,
when there is one. -/
def uptoFirst (delimiter : GoString) : GoString → Option GoString
  | [] => if delimiter = [] then some [] else none
  | c :: s =>
    if delimiter.isPrefixOf (c :: s) then some delimiter
    else (uptoFirst delimiter s).map fun r => c :: r

/-- The common prefix the specification asks for: the requested prefix followed
by the rest of the key up to and including the first occurrence of the
delimiter. -/
def expectedCommonPrefix (pfx delimiter key : GoString) : Option GoString :=
  (uptoFirst delimiter (key.drop pfx.length)).map fun r => pfx ++ r

/-- A lowercase hexadecimal digit: `0-9` or `a-f`. -/
def isLowerHexDigit (c : Char) : Bool :=
  (48 ≤ c.toNat && c.toNat ≤ 57) || (97 ≤ c.toNat && c.toNat ≤ 102)

/-- A client that pages through the parts of an upload: it calls
`ListObjectParts` with the given marker, keeps the page, and while the result is
truncated calls again with the `NextPartNumberMarker` it received.  `fuel`
bounds the number of calls; `none` means the fuel ran out or a call failed. -/
def pageThrough (rows : List Row) (bucket object uploadID : GoString) (maxParts : Int) :
    Nat → Backend → Int → Option (List (List PartInfo))
  | 0, _, _ => none
  | fuel + 1, s, marker =>
    match ListObjectParts s (some rows) bucket object uploadID marker maxParts with
    | (Except.error _, _) => none
    | (Except.ok res, s1) =>
      if res.IsTruncated = true then
        (pageThrough rows bucket object uploadID maxParts fuel s1 res.NextPartNumberMarker).map
          fun pages => res.Parts :: pages
      else some [res.Parts]

/-! ## The MD5 model against the RFC 1321 test suite -/

set_option maxRecDepth 100000 in
theorem getMD5Hash_test_vectors :
    getMD5Hash "".toList = "d41d8cd98f00b204e9800998ecf8427e".toList ∧
    getMD5Hash "a".toList = "0cc175b9c0f1b6a831c399e269772661".toList ∧
    getMD5Hash "abc".toList = "900150983cd24fb0d6963f7d28e17f72".toList ∧
    getMD5Hash "message digest".toList = "f96b697d7cb7938d525a2f31aaf161d0".toList ∧
    getMD5Hash "abcdefghijklmnopqrstuvwxyz".toList =
      "c3fcd3d76192e4007dfb496cca67e13b".toList ∧
    getMD5Hash
      "12345678901234567890123456789012345678901234567890123456789012345678901234567890".toList =
      "57edf4a22be3c955ac49da2e2107b67a".toList := by
  decide

/-! ## Upload identifiers -/

theorem fromHexChar_isSome (b : Nat) :
    (fromHexChar b).isSome = true ↔
      (48 ≤ b ∧ b ≤ 57) ∨ (97 ≤ b ∧ b ≤ 102) ∨ (65 ≤ b ∧ b ≤ 70) := by
  unfold fromHexChar
  split_ifs <;> simp <;> omega

theorem hexDecode_cons_cons (p q : Nat) (rest : List Nat) :
    (hexDecode (p :: q :: rest)).isSome =
      ((fromHexChar p).isSome && (fromHexChar q).isSome && (hexDecode rest).isSome) := by
  rw [hexDecode]
  cases fromHexChar p <;> cases fromHexChar q <;> simp
  cases hexDecode rest <;> simp

theorem hexDecode_isSome_aux (n : Nat) :
    ∀ bs : List Nat, bs.length ≤ n →
      ((hexDecode bs).isSome = true ↔
        bs.length % 2 = 0 ∧ ∀ b ∈ bs, (fromHexChar b).isSome = true) := by
  induction n using Nat.strong_induction_on with
  | _ n ih =>
    intro bs hlen
    match bs, hlen with
    | [], _ => simp [hexDecode]
    | [_], _ => simp [hexDecode]
    | p :: q :: rest, hlen =>
      have hrest := ih rest.length (by simp at hlen; omega) rest (le_refl _)
      rw [hexDecode_cons_cons]
      simp only [Bool.and_eq_true, hrest, List.length_cons, List.mem_cons, forall_eq_or_imp]
      constructor
      · rintro ⟨⟨hp, hq⟩, hl, hall⟩
        exact ⟨by omega, hp, hq, hall⟩
      · rintro ⟨hl, hp, hq, hall⟩
        exact ⟨⟨hp, hq⟩, by omega, hall⟩

theorem hexDecode_isSome (bs : List Nat) :
    (hexDecode bs).isSome = true ↔
      bs.length % 2 = 0 ∧ ∀ b ∈ bs, (fromHexChar b).isSome = true :=
  hexDecode_isSome_aux bs.length bs (le_refl _)

theorem utf8EncodeRune_ascii (c : Char) (h : c.toNat < 128) : utf8EncodeRune c = [c.toNat] := by
  simp [utf8EncodeRune, h]

theorem utf8EncodeRune_ne_nil (c : Char) : utf8EncodeRune c ≠ [] := by
  unfold utf8EncodeRune
  simp only
  split_ifs <;> simp

theorem utf8EncodeRune_head_large (c : Char) (h : ¬ c.toNat < 128) :
    ∃ b rest, utf8EncodeRune c = b :: rest ∧ 192 ≤ b ∧ rest ≠ [] := by
  unfold utf8EncodeRune
  simp only
  split_ifs
  · exact ⟨_, _, rfl, by omega, by simp⟩
  · exact ⟨_, _, rfl, by omega, by simp⟩
  · exact ⟨_, _, rfl, by omega, by simp⟩

theorem isHexDigit_iff (c : Char) :
    isHexDigit c = true ↔ ∀ b ∈ utf8EncodeRune c, (fromHexChar b).isSome = true := by
  by_cases h : c.toNat < 128
  · rw [utf8EncodeRune_ascii c h]
    simp only [List.mem_singleton, forall_eq, fromHexChar_isSome, isHexDigit,
      Bool.or_eq_true, Bool.and_eq_true, decide_eq_true_eq]
    tauto
  · obtain ⟨b, rest, hb, hlarge, _⟩ := utf8EncodeRune_head_large c h
    rw [hb]
    constructor
    · intro hx
      simp only [isHexDigit, Bool.or_eq_true, Bool.and_eq_true, decide_eq_true_eq] at hx
      omega
    · intro hall
      have := hall b (List.mem_cons_self _ _)
      rw [fromHexChar_isSome] at this
      omega

theorem isHexDigit_ascii (c : Char) (h : isHexDigit c = true) : c.toNat < 128 := by
  simp only [isHexDigit, Bool.or_eq_true, Bool.and_eq_true, decide_eq_true_eq] at h
  omega

theorem goBytes_all_hex (s : GoString) :
    (∀ b ∈ goBytes s, (fromHexChar b).isSome = true) ↔ ∀ c ∈ s, isHexDigit c = true := by
  induction s with
  | nil => simp [goBytes]
  | cons c s ih =>
    simp only [goBytes, List.mem_append, List.mem_cons, forall_eq_or_imp, or_imp, forall_and, ih,
      forall_eq]
    rw [isHexDigit_iff c]

theorem goLen_of_hex (s : GoString) (h : ∀ c ∈ s, isHexDigit c = true) : goLen s = s.length := by
  induction s with
  | nil => rfl
  | cons c s ih =>
    have hc := isHexDigit_ascii c (h c (List.mem_cons_self _ _))
    have := ih (fun d hd => h d (List.mem_cons_of_mem _ hd))
    simp only [goLen, goBytes, utf8EncodeRune_ascii c hc, List.length_append, List.length_cons,
      List.length_nil] at this ⊢
    omega

theorem checkIrodsUploadID_none_iff (s : GoString) :
    checkIrodsUploadID s = none ↔ goLen s = 16 ∧ ∀ c ∈ s, isHexDigit c = true := by
  unfold checkIrodsUploadID
  by_cases hl : goLen s = 16
  · have hd := hexDecode_isSome (goBytes s)
    rw [goBytes_all_hex] at hd
    simp only [hl, ne_eq, not_true_eq_false, if_false, true_and]
    cases hdec : hexDecodeString s with
    | none =>
      simp only [hexDecodeString] at hdec
      simp only [hdec, Option.isSome_none, Bool.false_eq_true, false_iff, not_and] at hd
      simp only [reduceCtorEq, false_iff]
      intro hall
      exact hd (by simp only [goLen] at hl; omega) hall
    | some v =>
      simp only [hexDecodeString] at hdec
      simp only [hdec, Option.isSome_some, true_iff] at hd
      simp only [true_iff]
      exact hd.2
  · simp [hl]

theorem checkIrodsUploadID_none_iff_length (s : GoString) :
    checkIrodsUploadID s = none ↔ s.length = 16 ∧ ∀ c ∈ s, isHexDigit c = true := by
  rw [checkIrodsUploadID_none_iff]
  constructor
  · rintro ⟨hl, hall⟩
    exact ⟨by rw [← goLen_of_hex s hall]; exact hl, hall⟩
  · rintro ⟨hl, hall⟩
    exact ⟨by rw [goLen_of_hex s hall]; exact hl, hall⟩

theorem checkIrodsUploadID_cases (s : GoString) :
    checkIrodsUploadID s = none ∨ checkIrodsUploadID s = some (GoError.malformedUploadID s) := by
  unfold checkIrodsUploadID
  split_ifs
  · right; rfl
  · cases hexDecodeString s with
    | none => right; rfl
    | some v => left; rfl

/-- C6. `checkIrodsUploadID s` returns the nil error exactly when `s` is 16
bytes long (equivalently 16 characters long) and every character is a
hexadecimal digit; in every other case it returns `MalformedUploadID` carrying
`s` itself. -/
theorem c6_checkIrodsUploadID_spec (s : GoString) :
    (checkIrodsUploadID s = none ↔ goLen s = 16 ∧ ∀ c ∈ s, isHexDigit c = true) ∧
    (checkIrodsUploadID s = none ↔ s.length = 16 ∧ ∀ c ∈ s, isHexDigit c = true) ∧
    (checkIrodsUploadID s = none ∨ checkIrodsUploadID s = some (GoError.malformedUploadID s)) :=
  ⟨checkIrodsUploadID_none_iff s, checkIrodsUploadID_none_iff_length s,
    checkIrodsUploadID_cases s⟩

/-! ## String order -/

theorem bytesLT_iff_lex (a b : List Nat) : bytesLT a b = true ↔ List.Lex (· < ·) a b := by
  induction a generalizing b with
  | nil =>
    cases b with
    | nil => simp [bytesLT]
    | cons y ys => simp [bytesLT, List.Lex.nil]
  | cons x xs ih =>
    cases b with
    | nil => simp [bytesLT]
    | cons y ys =>
      simp only [bytesLT]
      split_ifs with h1 h2
      · simp [List.Lex.rel h1]
      · simp only [Bool.false_eq_true, false_iff]
        intro h
        cases h with
        | cons h => omega
        | rel h => omega
      · have hxy : x = y := by omega
        subst hxy
        rw [ih]
        constructor
        · exact List.Lex.cons
        · intro h
          cases h with
          | cons h => exact h
          | rel h => omega

theorem bytesLT_of_not_bytesLE (a b : List Nat) (h : bytesLE a b = false) : bytesLT b a = true := by
  induction a generalizing b with
  | nil => simp [bytesLE] at h
  | cons x xs ih =>
    cases b with
    | nil => simp [bytesLT]
    | cons y ys =>
      simp only [bytesLE] at h
      simp only [bytesLT]
      split_ifs at h with h1 h2
      · simp [h2]
      · have hxy : ¬ y < x := h2
        simp [h1, h2, ih ys h]

theorem goStringLE_nil (s : GoString) : goStringLE s [] = true ↔ s = [] := by
  cases s with
  | nil => simp [goStringLE, goBytes, bytesLE]
  | cons c s =>
    simp only [goStringLE, goBytes, reduceCtorEq, iff_false]
    have := utf8EncodeRune_ne_nil c
    cases h : utf8EncodeRune c with
    | nil => exact absurd h this
    | cons b bs => simp [bytesLE]


/-! ## Listing -/

theorem rangeOrder_nil (x : Extern) : x.rangeOrder [] = [] :=
  List.Perm.eq_nil (x.rangeOrder_perm [])

theorem mem_rangeOrder (x : Extern) (keys : List GoString) (k : GoString) :
    k ∈ x.rangeOrder keys ↔ k ∈ keys :=
  (x.rangeOrder_perm keys).mem_iff

theorem mem_listObjectsPrefixes (x : Extern) (marker : GoString) (cps : List GoString)
    (k : GoString) :
    k ∈ listObjectsPrefixes x marker cps ↔
      k ∈ cps ∧ k ≠ GatewayMinioSysTmp ∧
        ¬ (isIrodsMarker marker = false ∧ goStringLE k marker = true) := by
  simp only [listObjectsPrefixes, List.mem_filter, mem_rangeOrder, Bool.not_eq_true',
    Bool.or_eq_false_iff, decide_eq_false_iff_not, Bool.and_eq_false_iff, Bool.not_eq_false',
    ne_eq, not_and, Bool.not_eq_true]
  constructor
  · rintro ⟨h1, h2, h3⟩
    refine ⟨h1, h2, fun hm => ?_⟩
    rcases h3 with h3 | h3
    · rw [hm] at h3; exact absurd h3 (by simp)
    · exact h3
  · rintro ⟨h1, h2, h3⟩
    refine ⟨h1, h2, ?_⟩
    cases hm : isIrodsMarker marker with
    | true => left; rfl
    | false => right; exact h3 hm

theorem listObjectsRow_cases (x : Extern) (bucket pfx marker delimiter : GoString) (blob : Row)
    (acc : ListAcc) :
    (∃ cp, listObjectsRow x bucket pfx marker delimiter blob acc =
        { acc with commonPrefixes := setInsert acc.commonPrefixes cp }) ∨
    listObjectsRow x bucket pfx marker delimiter blob acc = acc ∨
    (listObjectsRow x bucket pfx marker delimiter blob acc =
        { acc with objects := acc.objects ++ [rowObject x bucket blob] } ∧
      ¬ (isIrodsMarker marker = false ∧ goStringLE (rowKey bucket blob) marker = true)) := by
  unfold listObjectsRow
  simp only
  split
  · left; exact ⟨_, rfl⟩
  · right
    split_ifs with h1 h2
    · left; rfl
    · left; rfl
    · right; exact ⟨rfl, h2⟩

theorem listObjectsLoop_objects_inv (P : ObjectInfo → Prop) (x : Extern)
    (bucket pfx marker delimiter : GoString) (maxKeys : Int)
    (hrow : ∀ blob, ¬ (isIrodsMarker marker = false ∧
      goStringLE (rowKey bucket blob) marker = true) → P (rowObject x bucket blob))
    (rows : List Row) (acc : ListAcc) (hacc : ∀ o ∈ acc.objects, P o) :
    ∀ o ∈ (listObjectsLoop x bucket pfx marker delimiter maxKeys rows acc).objects, P o := by
  induction rows generalizing acc with
  | nil => simpa [listObjectsLoop] using hacc
  | cons blob rest ih =>
    simp only [listObjectsLoop]
    split_ifs with hcap
    · exact hacc
    · apply ih
      rcases listObjectsRow_cases x bucket pfx marker delimiter blob acc with ⟨cp, h⟩ | h | ⟨h, hn⟩
      · rw [h]; exact hacc
      · rw [h]; exact hacc
      · rw [h]
        intro o ho
        simp only [List.mem_append, List.mem_singleton] at ho
        rcases ho with ho | ho
        · exact hacc o ho
        · rw [ho]; exact hrow blob hn

/-- C3. With a marker that does not carry the reserved `{minio}` prefix,
`ListObjects` returns a listing in which every object name and every common
prefix is strictly greater than the marker in the byte-wise lexicographic order
of Go strings. -/
theorem c3_listObjects_after_marker (x : Extern) (rows : List Row)
    (bucket pfx marker delimiter : GoString) (maxKeys : Int)
    (hmarker : stringsHasPrefix marker irodsMarkerPrefix = false) :
    ∃ res, ListObjects x (some rows) bucket pfx marker delimiter maxKeys = Except.ok res ∧
      (∀ o ∈ res.Objects, List.Lex (· < ·) (goBytes marker) (goBytes o.Name)) ∧
      (∀ k ∈ res.Prefixes, List.Lex (· < ·) (goBytes marker) (goBytes k)) := by
  have hm : isIrodsMarker marker = false := hmarker
  refine ⟨_, rfl, ?_, ?_⟩
  · apply listObjectsLoop_objects_inv (fun o => List.Lex (· < ·) (goBytes marker) (goBytes o.Name))
    · intro blob hn
      rw [← bytesLT_iff_lex]
      apply bytesLT_of_not_bytesLE
      have : ¬ goStringLE (rowKey bucket blob) marker = true := fun h => hn ⟨hm, h⟩
      simpa [goStringLE, rowObject] using this
    · simp
  · intro k hk
    simp only [listObjectsPrefixes, List.mem_filter, hm, Bool.not_false, Bool.true_and,
      Bool.not_eq_true', Bool.or_eq_false_iff, decide_eq_false_iff_not] at hk
    rw [← bytesLT_iff_lex]
    exact bytesLT_of_not_bytesLE _ _ hk.2.2

set_option maxRecDepth 100000 in
/-- C3, at a concrete listing: rows `a`, `b`, `c/d` listed after marker `a` with
delimiter `/` give the object `b` and the common prefix `c/`, both after `a`. -/
theorem c3_listObjects_after_marker_witness :
    stringsHasPrefix "a".toList irodsMarkerPrefix = false ∧
    (ListObjects sampleExtern
      (some [sampleRow "b1".toList "a".toList "1".toList,
        sampleRow "b1".toList "b".toList "3".toList,
        sampleRow "b1".toList "c/d".toList "4".toList])
      "b1".toList [] "a".toList "/".toList 10).toOption.map
        (fun r => (r.Objects.map fun o => o.Name, r.Prefixes)) =
      some (["b".toList], ["c/".toList]) ∧
    ∃ res, ListObjects sampleExtern
        (some [sampleRow "b1".toList "a".toList "1".toList,
          sampleRow "b1".toList "b".toList "3".toList,
          sampleRow "b1".toList "c/d".toList "4".toList])
        "b1".toList [] "a".toList "/".toList 10 = Except.ok res ∧
      (∀ o ∈ res.Objects, List.Lex (· < ·) (goBytes "a".toList) (goBytes o.Name)) ∧
      (∀ k ∈ res.Prefixes, List.Lex (· < ·) (goBytes "a".toList) (goBytes k)) :=
  ⟨by decide, by decide,
   c3_listObjects_after_marker sampleExtern
    [sampleRow "b1".toList "a".toList "1".toList, sampleRow "b1".toList "b".toList "3".toList,
     sampleRow "b1".toList "c/d".toList "4".toList]
    "b1".toList [] "a".toList "/".toList 10 (by decide)⟩

theorem isIrodsMarker_nil : isIrodsMarker [] = false := by decide

theorem listObjectsRow_nodelim (x : Extern) (bucket pfx marker : GoString) (blob : Row)
    (acc : ListAcc) :
    listObjectsRow x bucket pfx marker [] blob acc =
      if stringsHasPrefix (rowKey bucket blob) GatewayMinioSysTmp = true then acc
      else if isIrodsMarker marker = false ∧ goStringLE (rowKey bucket blob) marker = true then acc
      else { acc with objects := acc.objects ++ [rowObject x bucket blob] } := by
  simp only [listObjectsRow, rowKey, rowObject, true_and]

theorem listObjectsRow_recursive (x : Extern) (bucket pfx : GoString) (blob : Row)
    (acc : ListAcc) :
    listObjectsRow x bucket pfx [] [] blob acc =
      if rowListed bucket blob = true then
        { acc with objects := acc.objects ++ [rowObject x bucket blob] }
      else acc := by
  rw [listObjectsRow_nodelim]
  by_cases h1 : stringsHasPrefix (rowKey bucket blob) GatewayMinioSysTmp = true
  · rw [if_pos h1, if_neg (by simp [rowListed, h1])]
  · rw [if_neg h1]
    by_cases h2 : rowKey bucket blob = []
    · rw [if_pos ⟨isIrodsMarker_nil, (goStringLE_nil _).2 h2⟩, if_neg (by simp [rowListed, h2])]
    · rw [if_neg (fun h => h2 ((goStringLE_nil _).1 h.2)),
        if_pos (by simpa [rowListed, h2] using h1)]

theorem listObjectsLoop_recursive (x : Extern) (bucket pfx : GoString) (maxKeys : Int)
    (rows : List Row) (acc : ListAcc)
    (hcap : (acc.objects.length : Int) + rows.length ≤ maxKeys) :
    listObjectsLoop x bucket pfx [] [] maxKeys rows acc =
      { acc with objects := acc.objects ++
          (rows.filter (rowListed bucket)).map (rowObject x bucket) } := by
  induction rows generalizing acc with
  | nil => simp [listObjectsLoop]
  | cons blob rest ih =>
    simp only [List.length_cons, Nat.cast_add, Nat.cast_one] at hcap
    have hlt : ¬ (acc.objects.length : Int) ≥ maxKeys := by omega
    simp only [listObjectsLoop, hlt, if_false]
    rw [listObjectsRow_recursive]
    by_cases hk : rowListed bucket blob = true
    · rw [if_pos hk, ih]
      · rw [List.filter_cons_of_pos hk]
        simp
      · simp only [List.length_append, List.length_singleton, Nat.cast_add, Nat.cast_one]
        omega
    · rw [if_neg hk, ih _ (by omega), List.filter_cons_of_neg hk]

/-- C4 (amended). With an empty delimiter, an empty marker and a max key count
at least the number of rows, `ListObjects` returns no common prefix and, in row
order, exactly one object for every row whose key is non-empty and does not
start with the reserved `minio.sys.tmp/` prefix, and none for the other rows. -/
theorem c4_listObjects_recursive (x : Extern) (rows : List Row) (bucket pfx : GoString)
    (maxKeys : Int) (hcap : (rows.length : Int) ≤ maxKeys) :
    ListObjects x (some rows) bucket pfx [] [] maxKeys =
      Except.ok
        { IsTruncated := false, NextMarker := [], Prefixes := [],
          Objects := (rows.filter (rowListed bucket)).map (rowObject x bucket) } := by
  simp only [ListObjects]
  rw [listObjectsLoop_recursive x bucket pfx maxKeys rows ⟨[], []⟩ (by simpa using hcap)]
  simp [listObjectsPrefixes, rangeOrder_nil]

set_option maxRecDepth 100000 in
/-- C4, the scenario of the specification: the single key `a/b.txt` of 10 bytes
listed with an empty delimiter is returned as one object named `a/b.txt` of
size 10. -/
theorem c4_listObjects_recursive_witness :
    ((1 : Nat) : Int) ≤ 1000 ∧
    (ListObjects sampleExtern (some [sampleRow "b1".toList "a/b.txt".toList "10".toList])
      "b1".toList [] [] [] 1000).toOption.map
        (fun r => (r.Prefixes, r.Objects.map fun o => (o.Name, o.Size))) =
      some ([], [("a/b.txt".toList, 10)]) :=
  ⟨by decide, by
    rw [c4_listObjects_recursive sampleExtern
      [sampleRow "b1".toList "a/b.txt".toList "10".toList] "b1".toList [] 1000 (by decide)]
    decide⟩

set_option maxRecDepth 100000 in
/-- C4 as stated fails on a row whose key is empty: the key does not start with
the reserved prefix, the max key count covers the row, and yet no object is
returned, because the empty key is not greater than the empty marker. -/
theorem c4_counterexample_empty_key :
    stringsHasPrefix (rowKey "b1".toList (sampleRow "b1".toList [] "10".toList))
      GatewayMinioSysTmp = false ∧
    (([sampleRow "b1".toList [] "10".toList].length : Nat) : Int) ≤ 1000 ∧
    ListObjects sampleExtern (some [sampleRow "b1".toList [] "10".toList])
      "b1".toList [] [] [] 1000 =
      Except.ok { IsTruncated := false, NextMarker := [], Objects := [], Prefixes := [] } := by
  decide


/-! ## Listing the parts of an upload -/

theorem mapInsert_keys (m : List (Int × PartInfo)) (k : Int) (v : PartInfo) :
    (mapInsert m k v).map Prod.fst =
      if k ∈ m.map Prod.fst then m.map Prod.fst else m.map Prod.fst ++ [k] := by
  induction m with
  | nil => simp [mapInsert]
  | cons kv rest ih =>
    obtain ⟨k', v'⟩ := kv
    simp only [mapInsert]
    by_cases h : k' = k
    · simp [h]
    · have h' : ¬ k = k' := fun e => h e.symm
      simp only [h, if_false, List.map_cons, ih, List.mem_cons, h', false_or]
      split_ifs <;> simp

theorem mapInsert_nodup (m : List (Int × PartInfo)) (k : Int) (v : PartInfo)
    (h : (m.map Prod.fst).Nodup) : ((mapInsert m k v).map Prod.fst).Nodup := by
  rw [mapInsert_keys]
  split_ifs with hk
  · exact h
  · exact List.Nodup.append h (List.nodup_singleton k) (by simpa using hk)

theorem mapGet_mapInsert (m : List (Int × PartInfo)) (k : Int) (v : PartInfo) (n : Int) :
    mapGet (mapInsert m k v) n = if n = k then some v else mapGet m n := by
  induction m with
  | nil =>
    by_cases h : n = k
    · simp [mapInsert, mapGet, h]
    · have h' : ¬ k = n := fun e => h e.symm
      simp [mapInsert, mapGet, h, h']
  | cons kv rest ih =>
    obtain ⟨k', v'⟩ := kv
    simp only [mapInsert]
    by_cases hk : k' = k
    · subst hk
      by_cases hn : n = k'
      · simp [mapGet, hn]
      · have hn' : ¬ k' = n := fun e => hn e.symm
        simp [mapGet, hn, hn']
    · simp only [hk, if_false]
      by_cases hn : k' = n
      · subst hn
        simp [mapGet, hk]
      · have : mapGet ((k', v') :: mapInsert rest k v) n = mapGet (mapInsert rest k v) n := by
          simp [mapGet, List.find?_cons, hn]
        rw [this, ih]
        simp [mapGet, List.find?_cons, hn]

theorem mapGet_eq_some_of_mem (m : List (Int × PartInfo)) (h : (m.map Prod.fst).Nodup)
    (k : Int) (v : PartInfo) (hmem : (k, v) ∈ m) : mapGet m k = some v := by
  induction m with
  | nil => simp at hmem
  | cons kv rest ih =>
    obtain ⟨k', v'⟩ := kv
    simp only [List.map_cons, List.nodup_cons, List.mem_map, Prod.exists, exists_and_right,
      exists_eq_right, not_exists] at h
    simp only [List.mem_cons, Prod.mk.injEq] at hmem
    rcases hmem with ⟨h1, h2⟩ | hmem
    · simp [mapGet, h1, h2]
    · have hne : ¬ k' = k := by
        intro e
        subst e
        exact h.1 v hmem
      have := ih h.2 hmem
      simpa [mapGet, List.find?_cons, hne] using this

theorem mem_of_mapGet_eq_some (m : List (Int × PartInfo)) (k : Int) (v : PartInfo)
    (h : mapGet m k = some v) : (k, v) ∈ m := by
  simp only [mapGet, Option.map_eq_some', Prod.exists, exists_eq_right] at h
  obtain ⟨k', hk⟩ := h
  have h1 := List.find?_some hk
  have h2 := List.mem_of_find?_eq_some hk
  simp only [decide_eq_true_eq] at h1
  subst h1
  exact h2

theorem lastWithNumber_cons (p : PartInfo) (ps : List PartInfo) (n : Int) :
    lastWithNumber (p :: ps) n =
      match lastWithNumber ps n with
      | some q => some q
      | none => if p.PartNumber = n then some p else none := by
  simp only [lastWithNumber, List.reverse_cons, List.find?_append]
  cases h : List.find? (fun p => decide (p.PartNumber = n)) ps.reverse with
  | some q => simp
  | none =>
    by_cases hp : p.PartNumber = n
    · simp [hp]
    · simp [hp]

theorem lastWithNumber_some (ps : List PartInfo) (n : Int) (p : PartInfo)
    (h : lastWithNumber ps n = some p) : p.PartNumber = n ∧ p ∈ ps := by
  simp only [lastWithNumber] at h
  have h1 := List.find?_some h
  have h2 := List.mem_of_find?_eq_some h
  simp only [decide_eq_true_eq] at h1
  exact ⟨h1, by simpa using h2⟩

theorem lastWithNumber_isSome (ps : List PartInfo) (p : PartInfo) (h : p ∈ ps) :
    (lastWithNumber ps p.PartNumber).isSome = true := by
  simp only [lastWithNumber, List.find?_isSome, List.mem_reverse, decide_eq_true_eq]
  exact ⟨p, h, rfl⟩

theorem buildMap_nodup (ps : List PartInfo) (m : List (Int × PartInfo))
    (h : (m.map Prod.fst).Nodup) : ((buildMap ps m).map Prod.fst).Nodup := by
  induction ps generalizing m with
  | nil => exact h
  | cons p ps ih => exact ih _ (mapInsert_nodup m _ _ h)

theorem mapGet_buildMap (ps : List PartInfo) (m : List (Int × PartInfo)) (n : Int) :
    mapGet (buildMap ps m) n =
      match lastWithNumber ps n with
      | some q => some q
      | none => mapGet m n := by
  induction ps generalizing m with
  | nil => simp [buildMap, lastWithNumber]
  | cons p ps ih =>
    have : buildMap (p :: ps) m = buildMap ps (mapInsert m p.PartNumber p) := rfl
    rw [this, ih, lastWithNumber_cons, mapGet_mapInsert]
    cases lastWithNumber ps n with
    | some q => rfl
    | none =>
      by_cases hp : p.PartNumber = n
      · simp [hp]
      · have hp' : ¬ n = p.PartNumber := fun e => hp e.symm
        simp [hp, hp']

theorem mem_buildMap_iff (ps : List PartInfo) (k : Int) (v : PartInfo) :
    (k, v) ∈ buildMap ps [] ↔ lastWithNumber ps k = some v := by
  have hnd := buildMap_nodup ps [] (by simp)
  have hget := mapGet_buildMap ps [] k
  constructor
  · intro hmem
    have := mapGet_eq_some_of_mem _ hnd k v hmem
    rw [hget] at this
    cases h : lastWithNumber ps k with
    | some q => simpa [h] using this
    | none => simp [h, mapGet] at this
  · intro h
    apply mem_of_mapGet_eq_some
    rw [hget, h]


theorem mem_vals_buildMap (ps : List PartInfo) (p : PartInfo) :
    p ∈ (buildMap ps []).map Prod.snd ↔ lastWithNumber ps p.PartNumber = some p := by
  simp only [List.mem_map, Prod.exists, exists_eq_right]
  constructor
  · rintro ⟨k, hk⟩
    have h := (mem_buildMap_iff ps k p).1 hk
    have := (lastWithNumber_some ps k p h).1
    rw [this]
    exact h
  · intro h
    exact ⟨_, (mem_buildMap_iff ps _ p).2 h⟩

theorem vals_numbers_buildMap (ps : List PartInfo) :
    ((buildMap ps []).map Prod.snd).map (fun p => p.PartNumber) =
      (buildMap ps []).map Prod.fst := by
  rw [List.map_map]
  apply List.map_congr_left
  rintro ⟨k, v⟩ hkv
  exact (lastWithNumber_some ps k v ((mem_buildMap_iff ps k v).1 hkv)).1

theorem vals_buildMap_nodup (ps : List PartInfo) :
    (((buildMap ps []).map Prod.snd).map fun p => p.PartNumber).Nodup := by
  rw [vals_numbers_buildMap]
  exact buildMap_nodup ps [] (by simp)

theorem mem_referenceParts (ps : List PartInfo) (p : PartInfo) :
    p ∈ referenceParts ps ↔ lastWithNumber ps p.PartNumber = some p := by
  simp only [referenceParts, List.mem_filterMap, List.mem_insertionSort, List.mem_dedup,
    List.mem_map]
  constructor
  · rintro ⟨n, _, hn⟩
    have := (lastWithNumber_some ps n p hn).1
    rw [this]
    exact hn
  · intro h
    exact ⟨p.PartNumber, ⟨p, (lastWithNumber_some ps _ p h).2, rfl⟩, h⟩

theorem referenceParts_strict (ps : List PartInfo) :
    (referenceParts ps).Pairwise fun a b => a.PartNumber < b.PartNumber := by
  have hs : (((ps.map fun p => p.PartNumber).dedup).insertionSort fun a b => a ≤ b).Sorted
      (fun a b => a ≤ b) := List.sorted_insertionSort _ _
  have hnd : (((ps.map fun p => p.PartNumber).dedup).insertionSort fun a b => a ≤ b).Nodup :=
    (List.perm_insertionSort _ _).nodup_iff.2 (List.nodup_dedup _)
  have hlt : (((ps.map fun p => p.PartNumber).dedup).insertionSort fun a b => a ≤ b).Pairwise
      (fun a b => a < b) := by
    have := List.Pairwise.and hs hnd
    exact this.imp (fun h => lt_of_le_of_ne h.1 h.2)
  unfold referenceParts
  rw [List.pairwise_filterMap]
  exact hlt.imp (fun {a b} hab p hp q hq => by
    have h1 := (lastWithNumber_some ps a p hp).1
    have h2 := (lastWithNumber_some ps b q hq).1
    rw [h1, h2]
    exact hab)

theorem sortParts_strict (l : List PartInfo) (h : (l.map fun p => p.PartNumber).Nodup) :
    (sortParts l).Pairwise fun a b => a.PartNumber < b.PartNumber := by
  haveI : IsTotal PartInfo (fun a b => a.PartNumber ≤ b.PartNumber) :=
    ⟨fun a b => le_total a.PartNumber b.PartNumber⟩
  haveI : IsTrans PartInfo (fun a b => a.PartNumber ≤ b.PartNumber) :=
    ⟨fun a b c h1 h2 => le_trans h1 h2⟩
  have hs : (sortParts l).Sorted (fun a b => a.PartNumber ≤ b.PartNumber) :=
    List.sorted_insertionSort _ _
  have hp : (sortParts l).Perm l := List.perm_insertionSort _ _
  have hnd : ((sortParts l).map fun p => p.PartNumber).Nodup :=
    (hp.map _).nodup_iff.2 h
  have hnd' : (sortParts l).Pairwise (fun a b => a.PartNumber ≠ b.PartNumber) := by
    rw [List.Nodup, List.pairwise_map] at hnd
    exact hnd
  exact (List.Pairwise.and hs hnd').imp (fun h => lt_of_le_of_ne h.1 h.2)

/-- Sorting the values of the map gives the reference list of the
specification, whatever order the map is iterated in. -/
theorem sortParts_perm_eq_referenceParts (ps : List PartInfo) (l : List PartInfo)
    (hl : l.Perm ((buildMap ps []).map Prod.snd)) : sortParts l = referenceParts ps := by
  haveI : IsAntisymm PartInfo (fun a b => a.PartNumber < b.PartNumber) :=
    ⟨fun a b h1 h2 => absurd h1 (not_lt.2 (le_of_lt h2))⟩
  have hnd : (l.map fun p => p.PartNumber).Nodup :=
    (hl.map _).nodup_iff.2 (vals_buildMap_nodup ps)
  have h1 := sortParts_strict l hnd
  have h2 := referenceParts_strict ps
  apply List.eq_of_perm_of_sorted _ h1 h2
  have hp : (sortParts l).Perm l := List.perm_insertionSort _ _
  refine (hp.trans hl).trans ?_
  rw [List.perm_ext_iff_of_nodup]
  · intro p
    rw [mem_vals_buildMap, mem_referenceParts]
  · exact List.Nodup.of_map _ (vals_buildMap_nodup ps)
  · exact (h2.imp (fun h e => by rw [e] at h; exact lt_irrefl _ h))

theorem sortParts_buildMap (ps : List PartInfo) :
    sortParts ((buildMap ps []).map Prod.snd) = referenceParts ps :=
  sortParts_perm_eq_referenceParts ps _ (List.Perm.refl _)


theorem partsMapLoop_cons_of_rowPart (r : Row) (rest : List Row) (m : List (Int × PartInfo))
    (p : PartInfo) (h : rowPart r = some p) :
    partsMapLoop (r :: rest) m = partsMapLoop rest (mapInsert m p.PartNumber p) := by
  simp only [rowPart, partNumberOfName, Option.map_eq_some'] at h
  obtain ⟨n, hn, hp⟩ := h
  rw [partsMapLoop]
  split at hn
  · rename_i a second tl hsplit
    split at hn
    · rename_i pn hat
      simp only [Option.some.injEq] at hn
      subst hn
      simp only [hsplit, hat]
      rw [← hp]
    · simp at hn
  · simp at hn

theorem partsMapLoop_ok (rows : List Row) (m : List (Int × PartInfo))
    (h : ∀ r ∈ rows, (rowPart r).isSome = true) :
    partsMapLoop rows m = Except.ok (buildMap (rows.filterMap rowPart) m) := by
  induction rows generalizing m with
  | nil => rfl
  | cons r rest ih =>
    obtain ⟨p, hp⟩ := Option.isSome_iff_exists.1 (h r (List.mem_cons_self _ _))
    rw [partsMapLoop_cons_of_rowPart r rest m p hp,
      ih _ (fun q hq => h q (List.mem_cons_of_mem _ hq))]
    simp [List.filterMap_cons, hp, buildMap]

theorem pageLoop_eq (maxParts : Int) (l : List PartInfo) (acc : PageAcc) :
    pageLoop maxParts l acc =
      { parts := acc.parts ++ l.take (maxParts - acc.partsCount).toNat,
        partsCount := acc.partsCount + (l.take (maxParts - acc.partsCount).toNat).length,
        i := acc.i + (l.take (maxParts - acc.partsCount).toNat).length } := by
  induction l generalizing acc with
  | nil => simp [pageLoop]
  | cons p rest ih =>
    simp only [pageLoop]
    split_ifs with hlt
    · rw [ih]
      have hk : (maxParts - acc.partsCount).toNat = (maxParts - (acc.partsCount + 1)).toNat + 1 := by
        omega
      rw [hk]
      simp only [List.take_succ_cons, List.append_assoc, List.singleton_append, List.length_cons,
        Nat.cast_add, Nat.cast_one]
      congr 1
      · omega
      · omega
    · have hk : (maxParts - acc.partsCount).toNat = 0 := by omega
      simp [hk]

/-- Every field of the result of the code after the query, for well-formed
rows, in terms of the reference list of the specification. -/
theorem listPartsOfRows_spec (rows : List Row) (bucket object uploadID : GoString)
    (partNumberMarker maxParts : Int) (h : ∀ r ∈ rows, (rowPart r).isSome = true) :
    ∃ res, listPartsOfRows rows bucket object uploadID partNumberMarker maxParts = Except.ok res ∧
      res.Parts = ((referenceParts (rows.filterMap rowPart)).drop
        (if partNumberMarker ≠ 0 then
          skipToMarker partNumberMarker (referenceParts (rows.filterMap rowPart)) 0
         else 0)).take maxParts.toNat ∧
      (res.IsTruncated = true ↔
        (if partNumberMarker ≠ 0 then
          skipToMarker partNumberMarker (referenceParts (rows.filterMap rowPart)) 0
         else 0) + res.Parts.length < (referenceParts (rows.filterMap rowPart)).length) ∧
      res.NextPartNumberMarker =
        (if res.IsTruncated = true then
          match res.Parts.getLast? with
          | some last => last.PartNumber
          | none => 0
         else 0) ∧
      res.PartNumberMarker = partNumberMarker ∧ res.MaxParts = maxParts ∧
      res.Bucket = bucket ∧ res.Object = object ∧ res.UploadID = uploadID := by
  unfold listPartsOfRows
  rw [partsMapLoop_ok rows [] h]
  simp only [sortParts_buildMap]
  generalize referenceParts (rows.filterMap rowPart) = parts
  generalize (if partNumberMarker ≠ 0 then skipToMarker partNumberMarker parts 0 else 0) = i0
  rw [pageLoop_eq]
  simp only [List.nil_append, zero_add, sub_zero]
  generalize hpage : (parts.drop i0).take maxParts.toNat = page
  by_cases htr : i0 + page.length < parts.length
  · rw [if_pos htr]
    by_cases hcnt : (page.length : Int) ≠ 0
    · rw [if_pos hcnt]
      have hlen : 0 < page.length := by omega
      have hidx : ((page.length : Int) - 1).toNat = page.length - 1 := by omega
      have hget : page.get? (page.length - 1) = page.getLast? := by
        rw [List.getLast?_eq_getElem?, List.get?_eq_getElem?]
      have hsome : ∃ last, page.getLast? = some last := by
        cases hp : page.getLast? with
        | none => simp [List.getLast?_eq_none_iff] at hp; simp [hp] at hlen
        | some last => exact ⟨last, rfl⟩
      obtain ⟨last, hlast⟩ := hsome
      rw [hidx, hget, hlast]
      exact ⟨_, rfl, rfl, by simpa using htr, by simp [hlast], rfl, rfl, rfl, rfl, rfl⟩
    · rw [if_neg hcnt]
      have hnil : page = [] := by
        cases page with
        | nil => rfl
        | cons a l => simp at hcnt; omega
      exact ⟨_, rfl, rfl, by simpa using htr, by simp [hnil], rfl, rfl, rfl, rfl, rfl⟩
  · rw [if_neg htr]
    exact ⟨_, rfl, rfl, by simpa using htr, by simp, rfl, rfl, rfl, rfl, rfl⟩


theorem listObjectParts_of_exists (s : Backend) (rows : List Row)
    (bucket object uploadID : GoString) (partNumberMarker maxParts : Int)
    (hexists : (checkUploadIDExists s bucket object uploadID).1 = none) :
    (ListObjectParts s (some rows) bucket object uploadID partNumberMarker maxParts).1 =
      listPartsOfRows rows bucket object uploadID partNumberMarker maxParts := by
  unfold ListObjectParts
  cases hc : checkUploadIDExists s bucket object uploadID with
  | mk e s1 =>
    rw [hc] at hexists
    simp only at hexists
    subst hexists
    rfl

/-- C8. When the upload exists and every row names a well-formed part,
`ListObjectParts` with part-number marker 0 returns as `Parts` the first
`maxParts` entries of the reference list; that list is strictly ascending in
part number and holds, for each part number, exactly the descriptor of the last
row carrying that number. -/
theorem c8_listObjectParts_first_page (s : Backend) (rows : List Row)
    (bucket object uploadID : GoString) (maxParts : Int)
    (hexists : (checkUploadIDExists s bucket object uploadID).1 = none)
    (hrows : ∀ r ∈ rows, (rowPart r).isSome = true) :
    ∃ res, (ListObjectParts s (some rows) bucket object uploadID 0 maxParts).1 = Except.ok res ∧
      res.Parts = (referenceParts (rows.filterMap rowPart)).take maxParts.toNat ∧
      (referenceParts (rows.filterMap rowPart)).Pairwise
        (fun a b => a.PartNumber < b.PartNumber) ∧
      (∀ p, p ∈ referenceParts (rows.filterMap rowPart) ↔
        lastWithNumber (rows.filterMap rowPart) p.PartNumber = some p) := by
  obtain ⟨res, h1, h2, _⟩ := listPartsOfRows_spec rows bucket object uploadID 0 maxParts hrows
  refine ⟨res, ?_, ?_, referenceParts_strict _, mem_referenceParts _⟩
  · rw [listObjectParts_of_exists s rows bucket object uploadID 0 maxParts hexists, h1]
  · simpa using h2

set_option maxRecDepth 100000 in
/-- C8, at a concrete upload: rows for parts 3, 1, 3 (again) and 2 listed with
`maxParts = 2` give parts 1 and 2, part 1 with the size of its only row. -/
theorem c8_listObjectParts_first_page_witness :
    ∃ res, (ListObjectParts sampleInitiated
        (some [samplePartRow "h".toList 3 "1".toList, samplePartRow "h".toList 1 "2".toList,
          samplePartRow "h".toList 3 "7".toList, samplePartRow "h".toList 2 "5".toList])
        "b1".toList "big.bin".toList sampleUploadID 0 2).1 = Except.ok res ∧
      res.Parts.map (fun p => (p.PartNumber, p.Size)) = [(1, 2), (2, 5)] := by
  obtain ⟨res, h1, h2, _⟩ := c8_listObjectParts_first_page sampleInitiated
    [samplePartRow "h".toList 3 "1".toList, samplePartRow "h".toList 1 "2".toList,
      samplePartRow "h".toList 3 "7".toList, samplePartRow "h".toList 2 "5".toList]
    "b1".toList "big.bin".toList sampleUploadID 2 (by decide) (by decide)
  exact ⟨res, h1, by rw [h2]; decide⟩


theorem skipToMarker_shift (m : Int) (l : List PartInfo) (i : Nat) :
    skipToMarker m l i = i + skipToMarker m l 0 := by
  induction l generalizing i with
  | nil => simp [skipToMarker]
  | cons p rest ih =>
    simp only [skipToMarker]
    split_ifs
    · omega
    · rw [ih (i + 1), ih (0 + 1)]
      omega

theorem skipToMarker_absent (m : Int) (l : List PartInfo)
    (h : ∀ p ∈ l, p.PartNumber ≠ m) : skipToMarker m l 0 = l.length := by
  induction l with
  | nil => rfl
  | cons p rest ih =>
    have hp : p.PartNumber ≠ m := h p (List.mem_cons_self _ _)
    simp only [skipToMarker, hp, if_false, List.length_cons]
    rw [skipToMarker_shift, ih (fun q hq => h q (List.mem_cons_of_mem _ hq))]
    omega

theorem drop_skipToMarker_present (m : Int) (l : List PartInfo)
    (hs : l.Pairwise fun a b => a.PartNumber < b.PartNumber)
    (h : ∃ p ∈ l, p.PartNumber = m) :
    l.drop (skipToMarker m l 0) = l.filter fun p => decide (m < p.PartNumber) := by
  induction l with
  | nil => simp at h
  | cons p rest ih =>
    rw [List.pairwise_cons] at hs
    by_cases hp : p.PartNumber = m
    · have hall : ∀ q ∈ rest, decide (m < q.PartNumber) = true := by
        intro q hq
        have := hs.1 q hq
        simp only [decide_eq_true_eq]
        omega
      simp only [skipToMarker, hp, if_true, zero_add, List.drop_succ_cons, List.drop_zero]
      rw [List.filter_cons_of_neg (by simp [hp]), List.filter_eq_self.2 hall]
    · obtain ⟨q, hq, hqm⟩ := h
      have hq' : q ∈ rest := by
        rcases List.mem_cons.1 hq with e | e
        · exact absurd (e ▸ hqm) hp
        · exact e
      have hlt : p.PartNumber < m := hqm ▸ hs.1 q hq'
      simp only [skipToMarker, hp, if_false]
      rw [skipToMarker_shift, List.filter_cons_of_neg (by simp; omega)]
      have : 0 + 1 + skipToMarker m rest 0 = skipToMarker m rest 0 + 1 := by omega
      rw [this, List.drop_succ_cons]
      exact ih hs.2 ⟨q, hq', hqm⟩

/-- Supporting C9: the marker behaviour of `ListObjectParts` for a non-zero
marker `m`.  Every returned part has a number greater than `m`; when a part
numbered `m` is stored the page holds the first `maxParts` stored parts with a
greater number; when no part numbered `m` is stored the page is empty. -/
theorem listObjectParts_marker (s : Backend) (rows : List Row)
    (bucket object uploadID : GoString) (m maxParts : Int)
    (hexists : (checkUploadIDExists s bucket object uploadID).1 = none)
    (hrows : ∀ r ∈ rows, (rowPart r).isSome = true) (hm : m ≠ 0) :
    ∃ res, (ListObjectParts s (some rows) bucket object uploadID m maxParts).1 = Except.ok res ∧
      (∀ p ∈ res.Parts, m < p.PartNumber) ∧
      ((∃ p ∈ referenceParts (rows.filterMap rowPart), p.PartNumber = m) →
        res.Parts = ((referenceParts (rows.filterMap rowPart)).filter
          fun p => decide (m < p.PartNumber)).take maxParts.toNat) ∧
      ((∀ p ∈ referenceParts (rows.filterMap rowPart), p.PartNumber ≠ m) → res.Parts = []) := by
  obtain ⟨res, h1, h2, _⟩ := listPartsOfRows_spec rows bucket object uploadID m maxParts hrows
  rw [if_pos hm] at h2
  have hpresent : (∃ p ∈ referenceParts (rows.filterMap rowPart), p.PartNumber = m) →
      res.Parts = ((referenceParts (rows.filterMap rowPart)).filter
        fun p => decide (m < p.PartNumber)).take maxParts.toNat := by
    intro hp
    rw [h2, drop_skipToMarker_present m _ (referenceParts_strict _) hp]
  have habsent : (∀ p ∈ referenceParts (rows.filterMap rowPart), p.PartNumber ≠ m) →
      res.Parts = [] := by
    intro ha
    rw [h2, skipToMarker_absent m _ ha]
    simp
  refine ⟨res, ?_, ?_, hpresent, habsent⟩
  · rw [listObjectParts_of_exists s rows bucket object uploadID m maxParts hexists, h1]
  · intro p hp
    by_cases hex : ∃ q ∈ referenceParts (rows.filterMap rowPart), q.PartNumber = m
    · rw [hpresent hex] at hp
      have := List.mem_of_mem_take hp
      simpa using (List.mem_filter.1 this).2
    · have : ∀ q ∈ referenceParts (rows.filterMap rowPart), q.PartNumber ≠ m :=
        fun q hq e => hex ⟨q, hq, e⟩
      rw [habsent this] at hp
      simp at hp

set_option maxRecDepth 100000 in
/-- C9, the failing input.  Parts 1 and 3 are stored and the marker is 2, a
number no stored part carries: the specification asks for the page `[3]` (the stored
parts whose number is greater than 2), the code returns an empty page and
reports no truncation. -/
theorem c9_absent_marker_returns_nothing :
    ((referenceParts ([samplePartRow "h".toList 1 "5".toList,
        samplePartRow "h".toList 3 "6".toList].filterMap rowPart)).filter
      (fun p => decide (2 < p.PartNumber))).map (fun p => p.PartNumber) = [3] ∧
    (ListObjectParts sampleInitiated
      (some [samplePartRow "h".toList 1 "5".toList, samplePartRow "h".toList 3 "6".toList])
      "b1".toList "big.bin".toList sampleUploadID 2 10).1 =
      Except.ok
        { Bucket := "b1".toList, Object := "big.bin".toList, UploadID := sampleUploadID,
          PartNumberMarker := 2, NextPartNumberMarker := 0, MaxParts := 10,
          IsTruncated := false, Parts := [] } := by
  decide

theorem take_append_drop_take_length (l : List PartInfo) (k : Nat) :
    l.take k ++ l.drop (l.take k).length = l := by
  by_cases h : k ≤ l.length
  · rw [List.length_take, Nat.min_eq_left h, List.take_append_drop]
  · have h' : l.length ≤ k := by omega
    rw [List.take_of_length_le h', List.drop_length, List.append_nil]

theorem drop_marker_eq_filter (m : Int) (l : List PartInfo)
    (hs : l.Pairwise fun a b => a.PartNumber < b.PartNumber)
    (h : m = 0 ∨ ∃ p ∈ l, p.PartNumber = m) :
    l.drop (if m ≠ 0 then skipToMarker m l 0 else 0) =
      l.filter fun p => decide (m = 0 ∨ m < p.PartNumber) := by
  by_cases hm : m = 0
  · subst hm
    simp
  · rw [if_pos hm, drop_skipToMarker_present m l hs (h.resolve_left hm)]
    congr 1
    funext p
    simp [hm]

theorem take_length_lt_iff (l : List PartInfo) (k : Nat) (hnd : l.Nodup) :
    (l.take k).length < l.length ↔ ∃ p ∈ l, p ∉ l.take k := by
  constructor
  · intro h
    have hk : k < l.length := by
      rw [List.length_take] at h
      omega
    have hnd' : (l.take k ++ l.drop k).Nodup := by
      rw [List.take_append_drop]
      exact hnd
    have hd : l[k] ∈ l.drop k := by
      rw [List.drop_eq_getElem_cons hk]
      exact List.mem_cons_self _ _
    exact ⟨l[k], List.getElem_mem _, fun hmem =>
      List.disjoint_left.1 (List.nodup_append.1 hnd').2.2 hmem hd⟩
  · rintro ⟨p, hp, hnp⟩
    by_contra hc
    rw [List.length_take] at hc
    rw [List.take_of_length_le (by omega)] at hnp
    exact hnp hp

theorem strict_nodup (l : List PartInfo)
    (hs : l.Pairwise fun a b => a.PartNumber < b.PartNumber) : l.Nodup :=
  hs.imp (fun h e => by rw [e] at h; exact lt_irrefl _ h)

/-- C10 (amended). For well-formed rows and a part-number marker that is 0 or
the number of a stored part, the parts in question are the stored parts when the
marker is 0 and the stored parts with a number greater than the marker
otherwise.  `ListObjectParts` returns the first `maxParts` of them and reports
`IsTruncated = true` exactly when one of them was not returned; when the page is
not empty, that is exactly when a stored part has a number greater than that of
the last part of the page.  When it reports truncation and the page is not
empty, `NextPartNumberMarker` is the part number of the last part of the page;
when the page is empty or nothing remains, `NextPartNumberMarker` is 0.
`PartNumberMarker` and `MaxParts` echo the inputs. -/
theorem c10_listObjectParts_truncation (s : Backend) (rows : List Row)
    (bucket object uploadID : GoString) (partNumberMarker maxParts : Int)
    (hexists : (checkUploadIDExists s bucket object uploadID).1 = none)
    (hrows : ∀ r ∈ rows, (rowPart r).isSome = true)
    (hmarker : partNumberMarker = 0 ∨
      ∃ p ∈ referenceParts (rows.filterMap rowPart), p.PartNumber = partNumberMarker) :
    ∃ res,
      (ListObjectParts s (some rows) bucket object uploadID partNumberMarker maxParts).1 =
        Except.ok res ∧
      res.Parts = ((referenceParts (rows.filterMap rowPart)).filter
        fun p => decide (partNumberMarker = 0 ∨ partNumberMarker < p.PartNumber)).take
          maxParts.toNat ∧
      (res.IsTruncated = true ↔
        ∃ p ∈ referenceParts (rows.filterMap rowPart),
          (partNumberMarker = 0 ∨ partNumberMarker < p.PartNumber) ∧ p ∉ res.Parts) ∧
      (∀ last, res.Parts.getLast? = some last →
        (res.IsTruncated = true ↔
          ∃ p ∈ referenceParts (rows.filterMap rowPart), last.PartNumber < p.PartNumber)) ∧
      (res.IsTruncated = true → ∀ last, res.Parts.getLast? = some last →
        res.NextPartNumberMarker = last.PartNumber) ∧
      (res.IsTruncated = false ∨ res.Parts = [] → res.NextPartNumberMarker = 0) ∧
      res.PartNumberMarker = partNumberMarker ∧ res.MaxParts = maxParts := by
  obtain ⟨res, h1, h2, h3, h4, h5, h6, _⟩ :=
    listPartsOfRows_spec rows bucket object uploadID partNumberMarker maxParts hrows
  have hs := referenceParts_strict (rows.filterMap rowPart)
  have hdrop := drop_marker_eq_filter partNumberMarker _ hs hmarker
  generalize referenceParts (rows.filterMap rowPart) = parts at h2 h3 hs hdrop ⊢
  generalize (if partNumberMarker ≠ 0 then skipToMarker partNumberMarker parts 0 else 0) = i0
    at h2 h3 hdrop
  generalize hcand : (parts.filter
    fun p => decide (partNumberMarker = 0 ∨ partNumberMarker < p.PartNumber)) = cand at hdrop ⊢
  have hmemc : ∀ p, p ∈ cand ↔
      p ∈ parts ∧ (partNumberMarker = 0 ∨ partNumberMarker < p.PartNumber) := by
    intro p
    rw [← hcand, List.mem_filter, decide_eq_true_eq]
  have hsc : cand.Pairwise fun a b => a.PartNumber < b.PartNumber := by
    rw [← hcand]
    exact hs.sublist (List.filter_sublist _)
  rw [hdrop] at h2
  have hlen : cand.length = parts.length - i0 := by
    rw [← hdrop, List.length_drop]
  have htr : res.IsTruncated = true ↔ ∃ p ∈ cand, p ∉ res.Parts := by
    rw [h3, h2, ← take_length_lt_iff cand _ (strict_nodup cand hsc)]
    omega
  refine ⟨res, ?_, h2, ?_, ?_, ?_, ?_, h5, h6⟩
  · rw [listObjectParts_of_exists s rows bucket object uploadID partNumberMarker maxParts hexists,
      h1]
  · rw [htr]
    constructor
    · rintro ⟨p, hp, hnp⟩
      exact ⟨p, ((hmemc p).1 hp).1, ((hmemc p).1 hp).2, hnp⟩
    · rintro ⟨p, hp, hm, hnp⟩
      exact ⟨p, (hmemc p).2 ⟨hp, hm⟩, hnp⟩
  · intro last hlast
    have hsplit : res.Parts ++ cand.drop res.Parts.length = cand := by
      rw [h2]
      exact take_append_drop_take_length cand _
    have hlastmem : last ∈ res.Parts := List.mem_of_getLast?_eq_some hlast
    have hsc' := hsc
    rw [← hsplit, List.pairwise_append] at hsc'
    rw [htr]
    constructor
    · rintro ⟨p, hp, hnp⟩
      rw [← hsplit, List.mem_append] at hp
      rcases hp with hp | hp
      · exact absurd hp hnp
      · exact ⟨p, ((hmemc p).1 (List.mem_of_mem_drop hp)).1, hsc'.2.2 last hlastmem p hp⟩
    · rintro ⟨p, hp, hlt⟩
      have hlastc : last ∈ cand := by
        rw [← hsplit]
        exact List.mem_append_left _ hlastmem
      have hm : partNumberMarker = 0 ∨ partNumberMarker < p.PartNumber := by
        rcases ((hmemc last).1 hlastc).2 with h0 | hl
        · exact Or.inl h0
        · exact Or.inr (lt_trans hl hlt)
      refine ⟨p, (hmemc p).2 ⟨hp, hm⟩, ?_⟩
      intro hpp
      obtain ⟨init, hinit⟩ := (List.getLast?_eq_some_iff).1 hlast
      have hpw := hsc'.1
      rw [hinit, List.pairwise_append] at hpw
      rw [hinit, List.mem_append, List.mem_singleton] at hpp
      rcases hpp with hpi | hpe
      · have := hpw.2.2 p hpi last (List.mem_singleton_self _)
        omega
      · rw [hpe] at hlt
        exact lt_irrefl _ hlt
  · intro ht last hlast
    rw [h4, if_pos ht, hlast]
  · rintro (hf | hnil)
    · rw [h4, if_neg (by simp [hf])]
    · rw [h4, hnil]
      simp

set_option maxRecDepth 100000 in
/-- C10, at a concrete upload: parts 1, 2 and 3 listed after the stored marker 1
with `maxParts = 1` give the page `[2]`, truncated since part 3 was not
returned, with next marker 2. -/
theorem c10_listObjectParts_truncation_witness :
    ∃ res, (ListObjectParts sampleInitiated
        (some [samplePartRow "h".toList 1 "5".toList, samplePartRow "h".toList 2 "6".toList,
          samplePartRow "h".toList 3 "7".toList])
        "b1".toList "big.bin".toList sampleUploadID 1 1).1 = Except.ok res ∧
      res.IsTruncated = true ∧ res.Parts.map (fun p => p.PartNumber) = [2] ∧
      res.NextPartNumberMarker = 2 ∧ res.PartNumberMarker = 1 ∧ res.MaxParts = 1 := by
  obtain ⟨res, h1, h2, h3, _, h5, _, h7, h8⟩ := c10_listObjectParts_truncation sampleInitiated
    [samplePartRow "h".toList 1 "5".toList, samplePartRow "h".toList 2 "6".toList,
      samplePartRow "h".toList 3 "7".toList]
    "b1".toList "big.bin".toList sampleUploadID 1 1 (by decide) (by decide)
    (Or.inr ⟨(rowPart (samplePartRow "h".toList 1 "5".toList)).getD ⟨0, 0, [], 0⟩,
      by decide, by decide⟩)
  have hparts : res.Parts.map (fun p => p.PartNumber) = [2] := by
    rw [h2]
    decide
  have htrunc : res.IsTruncated = true := by
    rw [h3]
    refine ⟨(rowPart (samplePartRow "h".toList 3 "7".toList)).getD ⟨0, 0, [], 0⟩,
      by decide, by decide, ?_⟩
    rw [h2]
    decide
  have hlast : res.Parts.getLast? =
      some ((rowPart (samplePartRow "h".toList 2 "6".toList)).getD ⟨0, 0, [], 0⟩) := by
    rw [h2]
    decide
  exact ⟨res, h1, htrunc, hparts, by rw [h5 htrunc _ hlast]; decide, h7, h8⟩

set_option maxRecDepth 100000 in
/-- C10 as stated fails when `maxParts` is 0 and a part is stored: the code
reports truncation with an empty page and leaves `NextPartNumberMarker` at 0,
so no next marker is reported although truncation is. -/
theorem c10_counterexample_empty_page :
    (ListObjectParts sampleInitiated (some [samplePartRow "h".toList 1 "5".toList])
      "b1".toList "big.bin".toList sampleUploadID 0 0).1 =
      Except.ok
        { Bucket := "b1".toList, Object := "big.bin".toList, UploadID := sampleUploadID,
          PartNumberMarker := 0, NextPartNumberMarker := 0, MaxParts := 0,
          IsTruncated := true, Parts := [] } := by
  decide


/-! ## Multipart uploads against the backend -/

set_option maxRecDepth 100000 in
/-- C1, the scenario of the specification.  After `NewMultipartUpload` for
`big.bin`, `PutObjectPart` of part 2 (`world`) and then part 1 (`hello`), the
two parts are stored under `<md5 of key>_2` and `<md5 of key>_1`.
`CompleteMultipartUpload` with the part list `[1, 2]` looks for
`<md5 of key>_%!i(int=1)`, finds nothing and fails; the final object it created
is left empty instead of holding `helloworld`. -/
theorem c1_complete_cannot_locate_parts :
    (NewMultipartUpload sampleExtern sampleBackend ⟨[1, 2, 3, 4, 5, 6, 7, 255], 8, none⟩
      "b1".toList "big.bin".toList []).1 = Except.ok sampleUploadID ∧
    (PutObjectPart sampleInitiated "b1".toList "big.bin".toList sampleUploadID 2
      ⟨goBytes "world".toList, []⟩ "etag2".toList 1530000001).1 =
      Except.ok { PartNumber := 2, LastModified := 1530000001, ETag := "etag2".toList,
                  Size := 5 } ∧
    (PutObjectPart
      (PutObjectPart sampleInitiated "b1".toList "big.bin".toList sampleUploadID 2
        ⟨goBytes "world".toList, []⟩ "etag2".toList 1530000001).2
      "b1".toList "big.bin".toList sampleUploadID 1
      ⟨goBytes "hello".toList, []⟩ "etag1".toList 1530000002).1 =
      Except.ok { PartNumber := 1, LastModified := 1530000002, ETag := "etag1".toList,
                  Size := 5 } ∧
    (sampleUploaded.objs.filter fun o =>
        decide (o.col = multipartColPath sampleBackend.root "b1".toList)).map
      (fun o => (o.name, o.content)) =
      [("21c83db663c0a3fa2cf432b83069dd10_2".toList, goBytes "world".toList),
       ("21c83db663c0a3fa2cf432b83069dd10_1".toList, goBytes "hello".toList)] ∧
    completePartName "big.bin".toList 1 = "21c83db663c0a3fa2cf432b83069dd10_%!i(int=1)".toList ∧
    (CompleteMultipartUpload sampleExtern sampleUploaded "b1".toList "big.bin".toList
      sampleUploadID [⟨1, []⟩, ⟨2, []⟩]).1 =
      Except.error (GoError.errorf "Unable to locate multipart object big.bin 1".toList) ∧
    ((CompleteMultipartUpload sampleExtern sampleUploaded "b1".toList "big.bin".toList
      sampleUploadID [⟨1, []⟩, ⟨2, []⟩]).2.lookup
        ("/tempZone/home/minio/b1/".toList ++ getMD5Hash "big.bin".toList)).map
      (fun o => o.content) = some [] := by
  decide

set_option maxRecDepth 100000 in
/-- C5 as stated fails: on a backend that holds no upload, `PutObjectPart` with
the malformed id `xyz` first asks the backend for the side-object (one call is
logged) and then fails with `ObjectNotFound`, not with `MalformedUploadID`. -/
theorem c5_counterexample_lookup_first :
    checkIrodsUploadID "xyz".toList = some (GoError.malformedUploadID "xyz".toList) ∧
    PutObjectPart sampleBackend "b1".toList "big.bin".toList "xyz".toList 1
      ⟨goBytes "hello".toList, []⟩ "etag1".toList 1530000002 =
      (Except.error (GoError.objectNotFound "b1".toList "big.bin".toList),
       sampleBackend.log (BackendCall.dataObject
        (sideObjectPath sampleBackend.root "b1".toList "big.bin".toList "xyz".toList))) := by
  decide

theorem getMetaObjectInBucket_eq (s : Backend) (bucket uploadID object : GoString) :
    getMetaObjectInBucket s bucket uploadID object =
      (s.lookup (sideObjectPath s.root bucket object uploadID),
       s.log (BackendCall.dataObject (sideObjectPath s.root bucket object uploadID))) := rfl

theorem checkUploadIDExists_eq (s : Backend) (bucket object uploadID : GoString) :
    checkUploadIDExists s bucket object uploadID =
      (if (s.lookup (sideObjectPath s.root bucket object uploadID)).isSome = true then none
        else some (GoError.objectNotFound bucket object),
       s.log (BackendCall.dataObject (sideObjectPath s.root bucket object uploadID))) := by
  unfold checkUploadIDExists
  rw [getMetaObjectInBucket_eq]
  cases s.lookup (sideObjectPath s.root bucket object uploadID) <;> rfl

/-- C5 (amended). For an upload id that is not exactly 16 hexadecimal
characters, `PutObjectPart` and `CompleteMultipartUpload` fail after a single
backend call, the lookup of the side-object of the upload: with
`ObjectNotFound` when the backend holds no side-object for the key and id, with
`MalformedUploadID` carrying the id otherwise.  Nothing is created, written or
destroyed: the backend is the initial one with that one call logged. -/
theorem c5_malformed_upload_id (x : Extern) (s : Backend) (bucket object uploadID : GoString)
    (partID : Int) (data : HashReader) (genETag : GoString) (now : Int)
    (uploadedParts : List CompletePart)
    (hbad : ¬ (uploadID.length = 16 ∧ ∀ c ∈ uploadID, isHexDigit c = true)) :
    PutObjectPart s bucket object uploadID partID data genETag now =
      (Except.error
        (if (s.lookup (sideObjectPath s.root bucket object uploadID)).isSome = true then
          GoError.malformedUploadID uploadID
         else GoError.objectNotFound bucket object),
       s.log (BackendCall.dataObject (sideObjectPath s.root bucket object uploadID))) ∧
    CompleteMultipartUpload x s bucket object uploadID uploadedParts =
      (Except.error
        (if (s.lookup (sideObjectPath s.root bucket object uploadID)).isSome = true then
          GoError.malformedUploadID uploadID
         else GoError.objectNotFound bucket object),
       s.log (BackendCall.dataObject (sideObjectPath s.root bucket object uploadID))) := by
  have hne : checkIrodsUploadID uploadID ≠ none :=
    fun h => hbad ((checkIrodsUploadID_none_iff_length uploadID).1 h)
  have hmal : checkIrodsUploadID uploadID = some (GoError.malformedUploadID uploadID) := by
    rcases checkIrodsUploadID_cases uploadID with h | h
    · exact absurd h hne
    · exact h
  unfold PutObjectPart CompleteMultipartUpload
  rw [checkUploadIDExists_eq]
  by_cases hex : (s.lookup (sideObjectPath s.root bucket object uploadID)).isSome = true
  · simp only [hex, if_true, hmal, and_self]
  · simp only [hex, if_false, Bool.false_eq_true, and_self]

set_option maxRecDepth 100000 in
/-- C5 (amended), at a concrete input: with the 15-character id `01020304050607f`
on a backend without that upload both operations fail with `ObjectNotFound`
after the one lookup. -/
theorem c5_malformed_upload_id_witness :
    PutObjectPart sampleInitiated "b1".toList "big.bin".toList "01020304050607f".toList 1
      ⟨goBytes "hello".toList, []⟩ "etag1".toList 1530000002 =
      (Except.error (GoError.objectNotFound "b1".toList "big.bin".toList),
       sampleInitiated.log (BackendCall.dataObject (sideObjectPath sampleInitiated.root
        "b1".toList "big.bin".toList "01020304050607f".toList))) := by
  have h := (c5_malformed_upload_id sampleExtern sampleInitiated "b1".toList "big.bin".toList
    "01020304050607f".toList 1 ⟨goBytes "hello".toList, []⟩ "etag1".toList 1530000002 []
    (by decide)).1
  rw [h]
  decide


theorem abortEach_root (h : GoString) (l : List DataObj) (s : Backend) :
    (abortEach h l s).root = s.root := by
  induction l generalizing s with
  | nil => rfl
  | cons p rest ih =>
    simp only [abortEach]
    split_ifs
    · rw [ih]; rfl
    · rw [ih]

theorem abortEach_subset (h : GoString) (l : List DataObj) (s : Backend) :
    ∀ o ∈ (abortEach h l s).objs, o ∈ s.objs := by
  induction l generalizing s with
  | nil => intro o ho; exact ho
  | cons p rest ih =>
    intro o ho
    simp only [abortEach] at ho
    split_ifs at ho
    · have := ih _ o ho
      simp only [Backend.destroy, List.mem_filter] at this
      exact this.1
    · exact ih _ o ho

theorem abortEach_removes (h : GoString) (l : List DataObj) (s : Backend) (p : DataObj)
    (hp : p ∈ l) (hpre : stringsHasPrefix p.name h = true) :
    ∀ o ∈ (abortEach h l s).objs, o.path ≠ p.path := by
  induction l generalizing s with
  | nil => simp at hp
  | cons q rest ih =>
    intro o ho
    simp only [abortEach] at ho
    rcases List.mem_cons.1 hp with e | hmem
    · subst e
      rw [if_pos hpre] at ho
      have := abortEach_subset h rest _ o ho
      simp only [Backend.destroy, List.mem_filter, decide_eq_true_eq] at this
      exact this.2
    · split_ifs at ho
      · exact ih _ hmem o ho
      · exact ih _ hmem o ho

theorem lookup_destroy (s : Backend) (path : GoString) : (s.destroy path).lookup path = none := by
  simp only [Backend.lookup, Backend.destroy, List.find?_eq_none, List.mem_filter,
    decide_eq_true_eq, and_imp]
  intro o _ hne
  simpa using hne

theorem lookup_path (s : Backend) (path : GoString) (o : DataObj)
    (h : s.lookup path = some o) : o.path = path := by
  have := List.find?_some h
  simpa using this

theorem getMultipartCol_eq (s : Backend) (bucket : GoString) :
    getMultipartCol s bucket =
      (if multipartColPath s.root bucket ∈ s.cols then some (multipartColPath s.root bucket)
        else none,
       s.log (BackendCall.collection (multipartColPath s.root bucket))) := by
  unfold getMultipartCol Backend.collection multipartColPath
  by_cases h : s.root ++ "/".toList ++ bucket ++ "/".toList ++ irodsMultipartSubCol ∈ s.cols
  · simp only [h, decide_True, if_true]
  · simp only [h, decide_False, if_false]

/-- What a successful `AbortMultipartUpload` has done to the backend. -/
theorem abort_success_inv (s s' : Backend) (bucket object uploadID : GoString)
    (habort : AbortMultipartUpload s bucket object uploadID = (none, s')) :
    ∃ rodsObj t, s.lookup (sideObjectPath s.root bucket object uploadID) = some rodsObj ∧
      t.root = s.root ∧ t.objs = s.objs ∧
      s' = (abortEach (getMD5Hash object)
        (s.objs.filter fun o => decide (o.col = multipartColPath s.root bucket)) t).destroy
          rodsObj.path := by
  unfold AbortMultipartUpload at habort
  rw [checkUploadIDExists_eq] at habort
  cases hl : s.lookup (sideObjectPath s.root bucket object uploadID) with
  | none =>
    rw [hl] at habort
    simp at habort
  | some rodsObj =>
    rw [hl] at habort
    simp only [Option.isSome_some, if_true] at habort
    rw [getMetaObjectInBucket_eq] at habort
    have hl1 : (s.log (BackendCall.dataObject
        (sideObjectPath s.root bucket object uploadID))).lookup
        (sideObjectPath (s.log (BackendCall.dataObject
          (sideObjectPath s.root bucket object uploadID))).root bucket object uploadID) =
        some rodsObj := hl
    rw [hl1] at habort
    simp only at habort
    rw [getMultipartCol_eq] at habort
    by_cases hc : multipartColPath s.root bucket ∈ s.cols
    · have hc1 : multipartColPath ((s.log (BackendCall.dataObject
          (sideObjectPath s.root bucket object uploadID))).log
          (BackendCall.dataObject (sideObjectPath (s.log (BackendCall.dataObject
          (sideObjectPath s.root bucket object uploadID))).root bucket object uploadID))).root
          bucket ∈ ((s.log (BackendCall.dataObject
          (sideObjectPath s.root bucket object uploadID))).log
          (BackendCall.dataObject (sideObjectPath (s.log (BackendCall.dataObject
          (sideObjectPath s.root bucket object uploadID))).root bucket object uploadID))).cols :=
        hc
      rw [if_pos hc1] at habort
      simp only [Prod.mk.injEq, true_and] at habort
      refine ⟨rodsObj, _, rfl, ?_, ?_, habort.symm⟩ <;> rfl
    · have hc1 : ¬ multipartColPath ((s.log (BackendCall.dataObject
          (sideObjectPath s.root bucket object uploadID))).log
          (BackendCall.dataObject (sideObjectPath (s.log (BackendCall.dataObject
          (sideObjectPath s.root bucket object uploadID))).root bucket object uploadID))).root
          bucket ∈ ((s.log (BackendCall.dataObject
          (sideObjectPath s.root bucket object uploadID))).log
          (BackendCall.dataObject (sideObjectPath (s.log (BackendCall.dataObject
          (sideObjectPath s.root bucket object uploadID))).root bucket object uploadID))).cols :=
        hc
      rw [if_neg hc1] at habort
      simp at habort

/-- C7. After `AbortMultipartUpload` returned without error, the multipart
sub-collection of the bucket holds no object whose name begins with the hex MD5
of the key, the side-object of the upload no longer exists, and a subsequent
`ListObjectParts` with the same bucket, key and id fails with `ObjectNotFound`,
whatever the query would return. -/
theorem c7_abort_leaves_nothing (s s' : Backend) (bucket object uploadID : GoString)
    (habort : AbortMultipartUpload s bucket object uploadID = (none, s')) :
    (∀ o ∈ s'.objs, o.col = multipartColPath s.root bucket →
      stringsHasPrefix o.name (getMD5Hash object) = false) ∧
    s'.lookup (sideObjectPath s.root bucket object uploadID) = none ∧
    ∀ (partsQ : Option (List Row)) (partNumberMarker maxParts : Int),
      (ListObjectParts s' partsQ bucket object uploadID partNumberMarker maxParts).1 =
        Except.error (GoError.objectNotFound bucket object) := by
  obtain ⟨rodsObj, t, hl, hroot, hobjs, hs'⟩ := abort_success_inv s s' bucket object uploadID habort
  have hpath := lookup_path s _ rodsObj hl
  have hroot' : s'.root = s.root := by
    rw [hs']
    show (abortEach _ _ t).root = s.root
    rw [abortEach_root, hroot]
  have hside : s'.lookup (sideObjectPath s.root bucket object uploadID) = none := by
    rw [hs', hpath]
    exact lookup_destroy _ _
  refine ⟨?_, hside, ?_⟩
  · intro o ho hcolo
    by_contra hpre
    have hpre' : stringsHasPrefix o.name (getMD5Hash object) = true := by simpa using hpre
    rw [hs'] at ho
    simp only [Backend.destroy, List.mem_filter] at ho
    have hin : o ∈ s.objs := hobjs ▸ abortEach_subset _ _ _ o ho.1
    exact abortEach_removes (getMD5Hash object) _ t o
      (List.mem_filter.2 ⟨hin, by simpa using hcolo⟩) hpre' o ho.1 rfl
  · intro partsQ m k
    unfold ListObjectParts
    rw [checkUploadIDExists_eq, hroot', hside]
    rfl

set_option maxRecDepth 100000 in
/-- C7, at a concrete upload: aborting the upload of `big.bin` after parts 2 and
1 were stored succeeds and leaves the backend without any data object. -/
theorem c7_abort_leaves_nothing_witness :
    (AbortMultipartUpload sampleUploaded "b1".toList "big.bin".toList sampleUploadID).1 = none ∧
    sampleUploaded.objs.length = 3 ∧
    (AbortMultipartUpload sampleUploaded "b1".toList "big.bin".toList sampleUploadID).2.objs = [] ∧
    (ListObjectParts
      (AbortMultipartUpload sampleUploaded "b1".toList "big.bin".toList sampleUploadID).2
      (some []) "b1".toList "big.bin".toList sampleUploadID 0 1000).1 =
      Except.error (GoError.objectNotFound "b1".toList "big.bin".toList) :=
  ⟨by decide, by decide, by decide,
    (c7_abort_leaves_nothing sampleUploaded
      (AbortMultipartUpload sampleUploaded "b1".toList "big.bin".toList sampleUploadID).2
      "b1".toList "big.bin".toList sampleUploadID (by decide)).2.2 (some []) 0 1000⟩


/-! ## Common prefixes -/

set_option maxRecDepth 100000 in
/-- C2, the failing input.  Key `xayab`, empty prefix, delimiter `ab`: the key
contains the delimiter, lies outside the reserved namespace and is reached
before the cap; the specification asks for the common prefix `xayab`, the code
stops at the first `a` (the first rune of the delimiter) and returns `xa`. -/
theorem c2_multirune_delimiter_cut_at_first_rune :
    stringsContains
      ((rowKey "b1".toList (sampleRow "b1".toList "xayab".toList "10".toList)).drop 0)
      "ab".toList = true ∧
    stringsHasPrefix (rowKey "b1".toList (sampleRow "b1".toList "xayab".toList "10".toList))
      GatewayMinioSysTmp = false ∧
    expectedCommonPrefix [] "ab".toList
      (rowKey "b1".toList (sampleRow "b1".toList "xayab".toList "10".toList)) =
      some "xayab".toList ∧
    ListObjects sampleExtern (some [sampleRow "b1".toList "xayab".toList "10".toList])
      "b1".toList [] [] "ab".toList 1000 =
      Except.ok { IsTruncated := false, NextMarker := [], Objects := [],
                  Prefixes := ["xa".toList] } := by
  decide

theorem goLen_cons (c : Char) (s : GoString) :
    goLen (c :: s) = (utf8EncodeRune c).length + goLen s := by
  simp [goLen, goBytes]

theorem utf8EncodeRune_length_pos (c : Char) : 0 < (utf8EncodeRune c).length :=
  List.length_pos.2 (utf8EncodeRune_ne_nil c)

theorem commonPrefixLoop_skip (L : Nat) (d : Char) (p rest acc : GoString) (pos : Nat)
    (h : pos + goLen p = L) :
    commonPrefixLoop L d pos (p ++ rest) acc = commonPrefixLoop L d L rest acc := by
  induction p generalizing pos with
  | nil =>
    have : pos = L := by simpa [goLen, goBytes] using h
    subst this
    rfl
  | cons c p ih =>
    rw [goLen_cons] at h
    have hpos := utf8EncodeRune_length_pos c
    have hlt : pos < L := by omega
    simp only [List.cons_append, commonPrefixLoop, hlt, if_true]
    exact ih _ (by omega)

theorem uptoFirst_single_cons (d c : Char) (s : GoString) :
    uptoFirst [d] (c :: s) =
      if c = d then some [d] else (uptoFirst [d] s).map fun r => c :: r := by
  simp only [uptoFirst, List.isPrefixOf, List.isPrefixOf_nil_left, Bool.and_true, beq_iff_eq]
  by_cases h : c = d
  · have h' : d = c := h.symm
    simp [h']
  · have h' : ¬ d = c := fun e => h e.symm
    simp [h, h']

theorem commonPrefixLoop_take (L : Nat) (d : Char) (rest acc cp : GoString) (pos : Nat)
    (hpos : L ≤ pos) (hcp : uptoFirst [d] rest = some cp) :
    commonPrefixLoop L d pos rest acc = acc ++ cp := by
  induction rest generalizing pos acc cp with
  | nil => simp [uptoFirst] at hcp
  | cons c rest ih =>
    have hnlt : ¬ pos < L := by omega
    rw [uptoFirst_single_cons] at hcp
    simp only [commonPrefixLoop, hnlt, if_false]
    by_cases hc : c = d
    · simp only [hc, if_true, Option.some.injEq] at hcp ⊢
      rw [← hcp]
    · simp only [hc, if_false, Option.map_eq_some'] at hcp ⊢
      obtain ⟨r, hr, hcp⟩ := hcp
      rw [ih _ r _ (by omega) hr, ← hcp]
      simp

theorem stringsContains_single (d : Char) (s : GoString) :
    stringsContains s [d] = true ↔ d ∈ s := by
  induction s with
  | nil => simp [stringsContains, List.isPrefixOf]
  | cons c s ih =>
    simp only [stringsContains, List.isPrefixOf, List.isPrefixOf_nil_left, Bool.and_true,
      Bool.or_eq_true, beq_iff_eq, ih, List.mem_cons]

theorem uptoFirst_single_of_mem (d : Char) (s : GoString) (h : d ∈ s) :
    ∃ cp, uptoFirst [d] s = some cp ∧ cp ≠ [] ∧ cp.isPrefixOf s = true := by
  induction s with
  | nil => simp at h
  | cons c s ih =>
    rw [uptoFirst_single_cons]
    by_cases hc : c = d
    · exact ⟨[d], by simp [hc], by simp, by simp [hc, List.isPrefixOf]⟩
    · have hd : d ∈ s := by
        rcases List.mem_cons.1 h with e | e
        · exact absurd e.symm hc
        · exact e
      obtain ⟨cp, h1, _, h3⟩ := ih hd
      exact ⟨c :: cp, by simp [hc, h1], by simp, by simp [List.isPrefixOf, h3]⟩


theorem listObjectsRow_single (x : Extern) (bucket pfx marker : GoString) (d : Char) (blob : Row)
    (acc : ListAcc) :
    listObjectsRow x bucket pfx marker [d] blob acc =
      if stringsContains (rowKey bucket blob) [d] = true ∧
          stringsContains (stringsTrimPrefix (rowKey bucket blob) pfx) [d] = true then
        { acc with commonPrefixes :=
            (setInsert acc.commonPrefixes
              (commonPrefixLoop (goLen pfx) d 0 (rowKey bucket blob) pfx)) }
      else if isIrodsMarker marker = false ∧ goStringLE (rowKey bucket blob) marker = true then acc
      else { acc with objects := acc.objects ++ [rowObject x bucket blob] } := by
  unfold listObjectsRow
  simp only [rowKey, rowObject]
  by_cases h1 : stringsContains (stringsTrimPrefix blob.metaValue (bucket ++ ":::::".toList)) [d]
      = true
  · by_cases h2 : stringsContains (stringsTrimPrefix
        (stringsTrimPrefix blob.metaValue (bucket ++ ":::::".toList)) pfx) [d] = true
    · simp only [h1, h2, if_true, and_self]
    · simp only [h1, h2, if_true, if_false, and_false, reduceCtorEq, false_and,
        Bool.false_eq_true]
  · simp only [h1, if_false, false_and, reduceCtorEq, Bool.false_eq_true]

theorem listObjectsRow_grouped (x : Extern) (bucket pfx marker : GoString) (d : Char) (blob : Row)
    (acc : ListAcc) (cp : GoString)
    (hpfx : stringsHasPrefix (rowKey bucket blob) pfx = true)
    (hcp : uptoFirst [d] ((rowKey bucket blob).drop pfx.length) = some cp)
    (hd : d ∈ (rowKey bucket blob).drop pfx.length) :
    listObjectsRow x bucket pfx marker [d] blob acc =
      { acc with commonPrefixes := setInsert acc.commonPrefixes (pfx ++ cp) } := by
  rw [listObjectsRow_single]
  have hkey : rowKey bucket blob = pfx ++ (rowKey bucket blob).drop pfx.length := by
    have := List.isPrefixOf_iff_prefix.1 hpfx
    obtain ⟨t, ht⟩ := this
    rw [← ht]
    simp
  have htrim : stringsTrimPrefix (rowKey bucket blob) pfx = (rowKey bucket blob).drop pfx.length := by
    simp [stringsTrimPrefix, hpfx]
  have h1 : stringsContains (rowKey bucket blob) [d] = true :=
    (stringsContains_single d _).2 (List.mem_of_mem_drop hd)
  have h2 : stringsContains (stringsTrimPrefix (rowKey bucket blob) pfx) [d] = true := by
    rw [htrim]
    exact (stringsContains_single d _).2 hd
  rw [if_pos ⟨h1, h2⟩]
  have hloop : commonPrefixLoop (goLen pfx) d 0 (rowKey bucket blob) pfx = pfx ++ cp := by
    conv_lhs => rw [hkey]
    rw [commonPrefixLoop_skip (goLen pfx) d pfx _ pfx 0 (by simp)]
    exact commonPrefixLoop_take (goLen pfx) d _ pfx cp (goLen pfx) (le_refl _) hcp
  rw [hloop]

theorem listObjectsLoop_append (x : Extern) (bucket pfx marker delimiter : GoString)
    (maxKeys : Int) (pre rest : List Row) (acc : ListAcc)
    (h : ((listObjectsLoop x bucket pfx marker delimiter maxKeys pre acc).objects.length : Int)
      < maxKeys) :
    listObjectsLoop x bucket pfx marker delimiter maxKeys (pre ++ rest) acc =
      listObjectsLoop x bucket pfx marker delimiter maxKeys rest
        (listObjectsLoop x bucket pfx marker delimiter maxKeys pre acc) := by
  induction pre generalizing acc with
  | nil => rfl
  | cons blob pre ih =>
    simp only [listObjectsLoop, List.cons_append] at h ⊢
    split_ifs with hcap
    · rw [if_pos hcap] at h
      omega
    · rw [if_neg hcap] at h
      exact ih _ h

theorem listObjectsLoop_commonPrefixes_mono (x : Extern) (bucket pfx marker delimiter : GoString)
    (maxKeys : Int) (rows : List Row) (acc : ListAcc) (cp : GoString)
    (h : cp ∈ acc.commonPrefixes) :
    cp ∈ (listObjectsLoop x bucket pfx marker delimiter maxKeys rows acc).commonPrefixes := by
  induction rows generalizing acc with
  | nil => exact h
  | cons blob rest ih =>
    simp only [listObjectsLoop]
    split_ifs
    · exact h
    · apply ih
      rcases listObjectsRow_cases x bucket pfx marker delimiter blob acc with ⟨k, hk⟩ | hk | ⟨hk, _⟩
      · rw [hk]
        simp only [setInsert]
        split_ifs
        · exact h
        · exact List.mem_append_left _ h
      · rw [hk]; exact h
      · rw [hk]; exact h

theorem listObjectsLoop_objects_emitted (P : ObjectInfo → Prop) (x : Extern)
    (bucket pfx marker delimiter : GoString) (maxKeys : Int)
    (hrow : ∀ blob acc, (listObjectsRow x bucket pfx marker delimiter blob acc).objects =
      acc.objects ++ [rowObject x bucket blob] → P (rowObject x bucket blob))
    (rows : List Row) (acc : ListAcc) (hacc : ∀ o ∈ acc.objects, P o) :
    ∀ o ∈ (listObjectsLoop x bucket pfx marker delimiter maxKeys rows acc).objects, P o := by
  induction rows generalizing acc with
  | nil => simpa [listObjectsLoop] using hacc
  | cons blob rest ih =>
    simp only [listObjectsLoop]
    split_ifs with hcap
    · exact hacc
    · apply ih
      rcases listObjectsRow_cases x bucket pfx marker delimiter blob acc with ⟨cp, h⟩ | h | ⟨h, _⟩
      · rw [h]; exact hacc
      · rw [h]; exact hacc
      · intro o ho
        rw [h] at ho
        simp only [List.mem_append, List.mem_singleton] at ho
        rcases ho with ho | ho
        · exact hacc o ho
        · rw [ho]
          exact hrow blob acc (by rw [h])

/-- Supporting C2: for a delimiter of one character the property holds.  A row
reached before the max-key cap, listed with an empty marker, whose key starts
with the prefix, contains the delimiter after the prefix and lies outside the
reserved namespace, yields the common prefix made of the prefix and the rest of
the key up to and including the first delimiter, and no object is returned for
that key. -/
theorem listObjects_groups_single_rune_delimiter (x : Extern) (pre post : List Row) (row : Row)
    (bucket pfx : GoString) (d : Char) (maxKeys : Int)
    (hpfx : stringsHasPrefix (rowKey bucket row) pfx = true)
    (hcont : stringsContains ((rowKey bucket row).drop pfx.length) [d] = true)
    (htmp : stringsHasPrefix (rowKey bucket row) GatewayMinioSysTmp = false)
    (hcap : ((listObjectsLoop x bucket pfx [] [d] maxKeys pre ⟨[], []⟩).objects.length : Int)
      < maxKeys) :
    ∃ res cp, ListObjects x (some (pre ++ row :: post)) bucket pfx [] [d] maxKeys = Except.ok res ∧
      expectedCommonPrefix pfx [d] (rowKey bucket row) = some cp ∧
      cp ∈ res.Prefixes ∧ ∀ o ∈ res.Objects, o.Name ≠ rowKey bucket row := by
  have hd : d ∈ (rowKey bucket row).drop pfx.length := (stringsContains_single d _).1 hcont
  obtain ⟨r, hr, hrne, hrpre⟩ := uptoFirst_single_of_mem d _ hd
  refine ⟨_, pfx ++ r, rfl, by simp [expectedCommonPrefix, hr], ?_, ?_⟩
  · simp only [listObjectsPrefixes, List.mem_filter, isIrodsMarker_nil, Bool.not_false,
      Bool.true_and, Bool.not_eq_true', Bool.or_eq_false_iff, decide_eq_false_iff_not]
    refine ⟨?_, ?_, ?_⟩
    · rw [mem_rangeOrder,
        listObjectsLoop_append x bucket pfx [] [d] maxKeys pre (row :: post) _ hcap]
      simp only [listObjectsLoop]
      rw [if_neg (by omega)]
      apply listObjectsLoop_commonPrefixes_mono
      rw [listObjectsRow_grouped x bucket pfx [] d row _ r hpfx hr hd]
      simp only [setInsert]
      split_ifs with hin
      · exact hin
      · simp
    · intro heq
      have hkey : rowKey bucket row = pfx ++ (rowKey bucket row).drop pfx.length := by
        obtain ⟨t, ht⟩ := List.isPrefixOf_iff_prefix.1 hpfx
        rw [← ht]
        simp
      have h1 : (pfx ++ r).isPrefixOf (rowKey bucket row) = true := by
        rw [List.isPrefixOf_iff_prefix]
        obtain ⟨t, ht⟩ := List.isPrefixOf_iff_prefix.1 hrpre
        exact ⟨t, by rw [List.append_assoc, ht, ← hkey]⟩
      rw [heq] at h1
      have : stringsHasPrefix (rowKey bucket row) GatewayMinioSysTmp = true := h1
      rw [htmp] at this
      exact Bool.false_ne_true this
    · cases hg : goStringLE (pfx ++ r) [] with
      | false => rfl
      | true =>
        have := (goStringLE_nil _).1 hg
        simp only [List.append_eq_nil] at this
        exact absurd this.2 hrne
  · apply listObjectsLoop_objects_emitted (fun o => o.Name ≠ rowKey bucket row)
    · intro blob acc hemit hname
      have hname' : rowKey bucket blob = rowKey bucket row := hname
      have hg := listObjectsRow_grouped x bucket pfx [] d blob acc r (hname' ▸ hpfx)
        (hname' ▸ hr) (hname' ▸ hd)
      rw [hg] at hemit
      have := congrArg List.length hemit
      simp at this
    · simp


set_option maxRecDepth 100000 in
/-- Supporting C2, the scenario of the specification: key `a/b.txt`, empty
prefix, delimiter `/` give the common prefix `a/` and zero objects. -/
theorem listObjects_groups_single_rune_delimiter_witness :
    ListObjects sampleExtern (some [sampleRow "b1".toList "a/b.txt".toList "10".toList])
      "b1".toList [] [] "/".toList 1000 =
      Except.ok { IsTruncated := false, NextMarker := [], Objects := [],
                  Prefixes := ["a/".toList] } ∧
    ∃ res cp, ListObjects sampleExtern
        (some ([] ++ sampleRow "b1".toList "a/b.txt".toList "10".toList :: []))
        "b1".toList [] [] ['/'] 1000 = Except.ok res ∧
      expectedCommonPrefix [] ['/']
        (rowKey "b1".toList (sampleRow "b1".toList "a/b.txt".toList "10".toList)) = some cp ∧
      cp ∈ res.Prefixes ∧
      ∀ o ∈ res.Objects,
        o.Name ≠ rowKey "b1".toList (sampleRow "b1".toList "a/b.txt".toList "10".toList) :=
  ⟨by decide,
   listObjects_groups_single_rune_delimiter sampleExtern [] []
    (sampleRow "b1".toList "a/b.txt".toList "10".toList) "b1".toList [] '/' 1000
    (by decide) (by decide) (by decide) (by decide)⟩

set_option maxRecDepth 100000 in
/-- Supporting C9, at a concrete upload: parts 1, 2 and 3 are stored and the
marker is 1, a stored part number; the page holds parts 2 and 3. -/
theorem listObjectParts_marker_witness :
    ∃ res, (ListObjectParts sampleInitiated
        (some [samplePartRow "h".toList 1 "5".toList, samplePartRow "h".toList 2 "6".toList,
          samplePartRow "h".toList 3 "7".toList])
        "b1".toList "big.bin".toList sampleUploadID 1 10).1 = Except.ok res ∧
      res.Parts.map (fun p => p.PartNumber) = [2, 3] := by
  obtain ⟨res, h1, _, h3, _⟩ := listObjectParts_marker sampleInitiated
    [samplePartRow "h".toList 1 "5".toList, samplePartRow "h".toList 2 "6".toList,
      samplePartRow "h".toList 3 "7".toList]
    "b1".toList "big.bin".toList sampleUploadID 1 10 (by decide) (by decide) (by decide)
  exact ⟨res, h1, by rw [h3 (by decide)]; decide⟩

/-! ## Object metadata -/

/-- C11 (amended). When the metadata search returns no row, `GetObjectInfo`
fails with the untyped error `Error occured finding object in <bucket>`; when it
returns at least one row, `GetObjectInfo` succeeds with the object built from
the first row: its key, size, modification time and entity tag. -/
theorem c11_getObjectInfo (x : Extern) (bucket object : GoString) :
    GetObjectInfo x (some []) bucket object =
      Except.error (GoError.errorf ("Error occured finding object in ".toList ++ bucket)) ∧
    ∀ (blob : Row) (rest : List Row),
      GetObjectInfo x (some (blob :: rest)) bucket object = Except.ok (rowObject x bucket blob) ∧
      (rowObject x bucket blob).Name = rowKey bucket blob ∧
      (rowObject x bucket blob).Size = (strconvParseInt blob.dataSize).1 ∧
      (rowObject x bucket blob).ModTime = (strconvParseInt blob.modifyTs).1 ∧
      (rowObject x bucket blob).ETag = getMD5Hash blob.dataChecksum ++ "-1".toList :=
  ⟨rfl, fun _ _ => ⟨rfl, rfl, rfl, rfl, rfl⟩⟩

set_option maxRecDepth 100000 in
/-- C11 as stated fails: for a key no row matches, `GetObjectInfo` returns an
error made with `fmt.Errorf`, not `ObjectNotFound` for the bucket and key. -/
theorem c11_counterexample_untyped_error :
    GetObjectInfo sampleExtern (some []) "b1".toList "a/b.txt".toList =
      Except.error (GoError.errorf "Error occured finding object in b1".toList) ∧
    GetObjectInfo sampleExtern (some []) "b1".toList "a/b.txt".toList ≠
      Except.error (GoError.objectNotFound "b1".toList "a/b.txt".toList) := by
  decide

/-! ## Truncation of listings -/

/-- C12. Whenever the query succeeds, `ListObjects` reports a page that is not
truncated and has an empty `NextMarker`, and `ListObjectsV2` reports a page that
is not truncated and has an empty `NextContinuationToken`. -/
theorem c12_listings_never_truncated (x : Extern) (rows : List Row)
    (bucket pfx marker delimiter continuationToken startAfter : GoString) (maxKeys : Int)
    (fetchOwner : Bool) :
    (∃ res, ListObjects x (some rows) bucket pfx marker delimiter maxKeys = Except.ok res ∧
      res.IsTruncated = false ∧ res.NextMarker = []) ∧
    (∃ res2, ListObjectsV2 x (some rows) bucket pfx continuationToken delimiter maxKeys
        fetchOwner startAfter = Except.ok res2 ∧
      res2.IsTruncated = false ∧ res2.NextContinuationToken = []) :=
  ⟨⟨_, rfl, rfl, rfl⟩, ⟨_, rfl, by simp, rfl⟩⟩


/-! ## Generated upload identifiers and part names -/

theorem hexDigit_lower (k : Nat) : isLowerHexDigit (hexDigit k) = true := by
  unfold hexDigit
  split <;> decide

theorem hexDigit_toNat_lt (k : Nat) : (hexDigit k).toNat < 128 := by
  have := hexDigit_lower k
  simp only [isLowerHexDigit, Bool.or_eq_true, Bool.and_eq_true, decide_eq_true_eq] at this
  omega

theorem fromHexChar_hexDigit (k : Nat) (h : k < 16) :
    fromHexChar (hexDigit k).toNat = some k := by
  interval_cases k <;> rfl

theorem hexEncodeToString_length (bs : List Nat) :
    (hexEncodeToString bs).length = 2 * bs.length := by
  induction bs with
  | nil => rfl
  | cons b bs ih => simp only [hexEncodeToString, List.length_cons, ih]; omega

theorem hexEncodeToString_lower (bs : List Nat) :
    ∀ c ∈ hexEncodeToString bs, isLowerHexDigit c = true := by
  induction bs with
  | nil => simp [hexEncodeToString]
  | cons b bs ih =>
    intro c hc
    simp only [hexEncodeToString, List.mem_cons] at hc
    rcases hc with h | h | h
    · rw [h]; exact hexDigit_lower _
    · rw [h]; exact hexDigit_lower _
    · exact ih c h

theorem hexDecodeString_hexEncodeToString (bs : List Nat) (h : ∀ b ∈ bs, b < 256) :
    hexDecodeString (hexEncodeToString bs) = some bs := by
  induction bs with
  | nil => rfl
  | cons b bs ih =>
    have hb : b < 256 := h b (List.mem_cons_self _ _)
    have ih' := ih (fun c hc => h c (List.mem_cons_of_mem _ hc))
    simp only [hexDecodeString] at ih' ⊢
    simp only [hexEncodeToString, goBytes, utf8EncodeRune_ascii _ (hexDigit_toNat_lt _),
      List.singleton_append, hexDecode,
      fromHexChar_hexDigit (b / 16 % 16) (Nat.mod_lt _ (by decide)),
      fromHexChar_hexDigit (b % 16) (Nat.mod_lt _ (by decide)), ih']
    congr 2
    omega

/-- C13. When the random source delivers 8 bytes, `getIrodsUploadID` returns,
with a nil error, the hex encoding of those bytes: a string of exactly 16
characters, each a lowercase hexadecimal digit, that decodes back to the 8
bytes.  When the source fails, it returns the empty id with the error of the
source. -/
theorem c13_getIrodsUploadID (r : RandRead) (herr : r.err = none) (hn : r.n = 8)
    (hlen : r.id.length = 8) (hbytes : ∀ b ∈ r.id, b < 256) :
    getIrodsUploadID r = (hexEncodeToString r.id, none) ∧
    (hexEncodeToString r.id).length = 16 ∧
    (∀ c ∈ hexEncodeToString r.id, isLowerHexDigit c = true) ∧
    hexDecodeString (hexEncodeToString r.id) = some r.id ∧
    ∀ (r' : RandRead) (e : GoError), r'.err = some e → getIrodsUploadID r' = ([], some e) := by
  refine ⟨?_, ?_, hexEncodeToString_lower _, hexDecodeString_hexEncodeToString _ hbytes, ?_⟩
  · have htake : r.id.take 8 = r.id := List.take_of_length_le (by omega)
    simp [getIrodsUploadID, herr, hn, htake]
  · rw [hexEncodeToString_length, hlen]
  · intro r' e he
    simp [getIrodsUploadID, he]

set_option maxRecDepth 100000 in
/-- C13, at the bytes `01 02 03 04 05 06 07 ff`: the id is `01020304050607ff`. -/
theorem c13_getIrodsUploadID_witness :
    getIrodsUploadID ⟨[1, 2, 3, 4, 5, 6, 7, 255], 8, none⟩ =
      ("01020304050607ff".toList, none) ∧
    getIrodsUploadID ⟨[1, 2, 3, 0, 0, 0, 0, 0], 3, some (GoError.backend "EOF".toList)⟩ =
      ([], some (GoError.backend "EOF".toList)) := by
  have h := c13_getIrodsUploadID ⟨[1, 2, 3, 4, 5, 6, 7, 255], 8, none⟩ rfl rfl rfl (by decide)
  exact ⟨by rw [h.1]; decide, h.2.2.2.2 _ _ rfl⟩


theorem digitChar_toNat (k : Nat) (h : k < 10) : (Char.ofNat (48 + k)).toNat = 48 + k := by
  interval_cases k <;> rfl

theorem natDigits_append (fuel n : Nat) (acc : GoString) :
    natDigits fuel n acc = natDigits fuel n [] ++ acc := by
  induction fuel generalizing n acc with
  | zero => simp [natDigits]
  | succ fuel ih =>
    simp only [natDigits]
    split_ifs
    · simp
    · rw [ih (n / 10) (Char.ofNat (48 + n % 10) :: acc), ih (n / 10) [Char.ofNat (48 + n % 10)]]
      simp

theorem natDigits_succ_of_ge (fuel n : Nat) (h : ¬ n < 10) :
    natDigits (fuel + 1) n [] = natDigits fuel (n / 10) [] ++ [Char.ofNat (48 + n % 10)] := by
  simp only [natDigits, h, if_false]
  exact natDigits_append _ _ _

theorem natDigits_toNat (fuel n : Nat) :
    ∀ c ∈ natDigits fuel n [], 48 ≤ c.toNat ∧ c.toNat ≤ 57 := by
  induction fuel generalizing n with
  | zero => simp [natDigits]
  | succ fuel ih =>
    intro c hc
    by_cases h : n < 10
    · simp only [natDigits, h, if_true, List.mem_singleton] at hc
      rw [hc, digitChar_toNat n h]
      omega
    · rw [natDigits_succ_of_ge fuel n h, List.mem_append, List.mem_singleton] at hc
      rcases hc with hc | hc
      · exact ih _ c hc
      · rw [hc, digitChar_toNat _ (Nat.mod_lt _ (by decide))]
        have := Nat.mod_lt n (show 0 < 10 by decide)
        omega

theorem natDigits_ne_nil (fuel n : Nat) : natDigits (fuel + 1) n [] ≠ [] := by
  by_cases h : n < 10
  · simp [natDigits, h]
  · rw [natDigits_succ_of_ge fuel n h]
    simp

theorem goBytes_of_ascii (s : GoString) (h : ∀ c ∈ s, c.toNat < 128) :
    goBytes s = s.map Char.toNat := by
  induction s with
  | nil => rfl
  | cons c s ih =>
    simp only [goBytes, utf8EncodeRune_ascii c (h c (List.mem_cons_self _ _)),
      ih (fun d hd => h d (List.mem_cons_of_mem _ hd)), List.singleton_append, List.map_cons]

theorem goBytes_natDigits (fuel n : Nat) :
    goBytes (natDigits fuel n []) = (natDigits fuel n []).map Char.toNat :=
  goBytes_of_ascii _ (fun c hc => by have := natDigits_toNat fuel n c hc; omega)

theorem foldl_natDigits (fuel n : Nat) (h : n < fuel) :
    ((natDigits fuel n []).map Char.toNat).foldl (fun a c => a * 10 + (c - 48)) 0 = n := by
  induction fuel generalizing n with
  | zero => omega
  | succ fuel ih =>
    by_cases h10 : n < 10
    · simp only [natDigits, h10, if_true, List.map_cons, List.map_nil, List.foldl_cons,
        List.foldl_nil, digitChar_toNat n h10]
      omega
    · rw [natDigits_succ_of_ge fuel n h10, List.map_append, List.foldl_append,
        ih (n / 10) (by omega)]
      simp only [List.map_cons, List.map_nil, List.foldl_cons, List.foldl_nil,
        digitChar_toNat _ (Nat.mod_lt n (show 0 < 10 by decide))]
      omega

theorem foldl_digits_ge (bs : List Nat) (a : Nat) :
    a ≤ bs.foldl (fun a c => a * 10 + (c - 48)) a := by
  induction bs generalizing a with
  | nil => exact le_refl _
  | cons c bs ih =>
    simp only [List.foldl_cons]
    have := ih (a * 10 + (c - 48))
    omega

theorem parseUintLoop_digits (bs : List Nat) (a : Nat)
    (hd : ∀ c ∈ bs, 48 ≤ c ∧ c ≤ 57)
    (hv : bs.foldl (fun a c => a * 10 + (c - 48)) a ≤ 9223372036854775808) :
    parseUintLoop bs a = (bs.foldl (fun a c => a * 10 + (c - 48)) a, NumErr.ok) := by
  induction bs generalizing a with
  | nil => rfl
  | cons c bs ih =>
    have hc := hd c (List.mem_cons_self _ _)
    simp only [List.foldl_cons] at hv ⊢
    have hge := foldl_digits_ge bs (a * 10 + (c - 48))
    have h1 : ¬ a ≥ 1844674407370955162 := by omega
    have h2 : ¬ a * 10 + (c - 48) > 18446744073709551615 := by omega
    simp only [parseUintLoop, hc, and_self, if_true, h1, if_false, h2]
    exact ih _ (fun d hd' => hd d (List.mem_cons_of_mem _ hd')) hv

/-- The digits `strconv.Itoa` prints for a natural number are read back by
`strconv.ParseUint`. -/
theorem strconvParseUint_natDigits (m : Nat) (h : m ≤ 9223372036854775808) :
    strconvParseUint (goBytes (natDigits (m + 1) m [])) = (m, NumErr.ok) := by
  rw [goBytes_natDigits]
  have hne : (natDigits (m + 1) m []).map Char.toNat ≠ [] := by
    simpa using natDigits_ne_nil m m
  have hfold := foldl_natDigits (m + 1) m (by omega)
  have hloop := parseUintLoop_digits ((natDigits (m + 1) m []).map Char.toNat) 0
    (by
      intro c hc
      obtain ⟨d, hd, rfl⟩ := List.mem_map.1 hc
      exact natDigits_toNat _ _ d hd)
    (by rw [hfold]; exact h)
  rw [hfold] at hloop
  cases hl : (natDigits (m + 1) m []).map Char.toNat with
  | nil => exact absurd hl hne
  | cons c cs =>
    rw [hl] at hloop
    simp only [strconvParseUint, hloop]


theorem strconvAtoi_strconvItoa (n : Int) (hlo : -9223372036854775808 ≤ n)
    (hhi : n ≤ 9223372036854775807) : strconvAtoi (strconvItoa n) = (n, NumErr.ok) := by
  unfold strconvAtoi strconvParseInt strconvItoa
  by_cases hneg : n < 0
  · rw [if_pos hneg]
    have hm : n.natAbs ≤ 9223372036854775808 := by omega
    have hp := strconvParseUint_natDigits n.natAbs hm
    have hb : goBytes ('-' :: natDigits (n.natAbs + 1) n.natAbs []) =
        45 :: goBytes (natDigits (n.natAbs + 1) n.natAbs []) := rfl
    rw [hb]
    simp only [parseIntBytes, hp, decide_True, Bool.not_true, Bool.false_and, Bool.true_and,
      or_true, if_true, decide_eq_true_eq, Bool.false_eq_true, if_false]
    have h2 : ¬ n.natAbs > 9223372036854775808 := by omega
    simp only [h2, if_false, Prod.mk.injEq, and_true]
    omega
  · rw [if_neg hneg]
    have hm : n.natAbs ≤ 9223372036854775808 := by omega
    have hp := strconvParseUint_natDigits n.natAbs hm
    rw [goBytes_natDigits] at hp ⊢
    have hne : (natDigits (n.natAbs + 1) n.natAbs []).map Char.toNat ≠ [] := by
      simpa using natDigits_ne_nil n.natAbs n.natAbs
    cases hl : (natDigits (n.natAbs + 1) n.natAbs []).map Char.toNat with
    | nil => exact absurd hl hne
    | cons c cs =>
      rw [hl] at hp
      have hc : 48 ≤ c ∧ c ≤ 57 := by
        have hmem : c ∈ (natDigits (n.natAbs + 1) n.natAbs []).map Char.toNat := by
          rw [hl]; exact List.mem_cons_self _ _
        obtain ⟨d, hd, rfl⟩ := List.mem_map.1 hmem
        exact natDigits_toNat _ _ d hd
      have h43 : ¬ c = 43 := by omega
      have h45 : ¬ c = 45 := by omega
      simp only [parseIntBytes, h43, h45, or_self, if_false, hp, decide_False, Bool.not_false,
        Bool.true_and, Bool.false_and, decide_eq_true_eq, Bool.false_eq_true]
      have h2 : ¬ n.natAbs ≥ 9223372036854775808 := by omega
      simp only [h2, if_false, Prod.mk.injEq, and_true]
      omega

theorem strconvItoa_chars (n : Int) :
    ∀ c ∈ strconvItoa n, c = '-' ∨ (48 ≤ c.toNat ∧ c.toNat ≤ 57) := by
  intro c hc
  unfold strconvItoa at hc
  split_ifs at hc
  · rcases List.mem_cons.1 hc with h | h
    · exact Or.inl h
    · exact Or.inr (natDigits_toNat _ _ c h)
  · exact Or.inr (natDigits_toNat _ _ c hc)

theorem stringsSplit_no_sep (sep : Char) (s : GoString) (h : sep ∉ s) :
    stringsSplit sep s = [s] := by
  induction s with
  | nil => rfl
  | cons c s ih =>
    have hc : ¬ c = sep := fun e => h (e ▸ List.mem_cons_self _ _)
    have hs : sep ∉ s := fun e => h (List.mem_cons_of_mem _ e)
    simp only [stringsSplit, hc, if_false, ih hs]

theorem stringsSplit_append_sep (sep : Char) (a b : GoString) (h : sep ∉ a) :
    stringsSplit sep (a ++ sep :: b) = a :: stringsSplit sep b := by
  induction a with
  | nil => simp [stringsSplit]
  | cons c a ih =>
    have hc : ¬ c = sep := fun e => h (e ▸ List.mem_cons_self _ _)
    have hs : sep ∉ a := fun e => h (List.mem_cons_of_mem _ e)
    have ih' := ih hs
    rw [List.cons_append, stringsSplit, if_neg hc, ih']

theorem getMD5Hash_chars (text : GoString) :
    ∀ c ∈ getMD5Hash text, isLowerHexDigit c = true :=
  hexEncodeToString_lower _

theorem underscore_not_mem_getMD5Hash (text : GoString) : '_' ∉ getMD5Hash text := by
  intro h
  have := getMD5Hash_chars text _ h
  revert this
  decide

theorem underscore_not_mem_strconvItoa (n : Int) : '_' ∉ strconvItoa n := by
  intro h
  rcases strconvItoa_chars n _ h with e | e
  · revert e; decide
  · revert e; decide

/-- C17. For every key and every part number `n` of Go's 64-bit `int`, the name
`PutObjectPart` builds splits on `_` into exactly two fields, the hex MD5 of the
key and the decimal number, so the index 1 read by `ListObjectParts` is in
bounds, and `strconv.Atoi` converts the second field back to `n` without
error. -/
theorem c17_part_name_parses_back (object : GoString) (n : Int)
    (hlo : -9223372036854775808 ≤ n) (hhi : n ≤ 9223372036854775807) :
    stringsSplit '_' (partObjName object n) = [getMD5Hash object, strconvItoa n] ∧
    strconvAtoi (strconvItoa n) = (n, NumErr.ok) ∧
    partNumberOfName (partObjName object n) = some n := by
  have hsplit : stringsSplit '_' (partObjName object n) = [getMD5Hash object, strconvItoa n] := by
    have : partObjName object n = getMD5Hash object ++ '_' :: strconvItoa n := by
      simp [partObjName]
    rw [this, stringsSplit_append_sep _ _ _ (underscore_not_mem_getMD5Hash object),
      stringsSplit_no_sep _ _ (underscore_not_mem_strconvItoa n)]
  have hatoi := strconvAtoi_strconvItoa n hlo hhi
  refine ⟨hsplit, hatoi, ?_⟩
  simp only [partNumberOfName, hsplit, hatoi]

set_option maxRecDepth 100000 in
/-- C17, at key `big.bin`: parts 1, 10000 and the least 64-bit integer are read
back from their names. -/
theorem c17_part_name_parses_back_witness :
    partObjName "big.bin".toList 1 = "21c83db663c0a3fa2cf432b83069dd10_1".toList ∧
    partNumberOfName (partObjName "big.bin".toList 1) = some 1 ∧
    partNumberOfName (partObjName "big.bin".toList 10000) = some 10000 ∧
    partNumberOfName (partObjName "big.bin".toList (-9223372036854775808)) =
      some (-9223372036854775808) :=
  ⟨by decide,
   (c17_part_name_parses_back "big.bin".toList 1 (by decide) (by decide)).2.2,
   (c17_part_name_parses_back "big.bin".toList 10000 (by decide) (by decide)).2.2,
   (c17_part_name_parses_back "big.bin".toList (-9223372036854775808)
    (by decide) (by decide)).2.2⟩

theorem percent_not_mem_partObjName (object : GoString) (n : Int) :
    '%' ∉ partObjName object n := by
  intro h
  simp only [partObjName, List.mem_append] at h
  rcases h with (h | h) | h
  · have := getMD5Hash_chars object _ h
    revert this
    decide
  · revert h; decide
  · rcases strconvItoa_chars n _ h with e | e
    · revert e; decide
    · revert e; decide

/-- C14. The name `CompleteMultipartUpload` looks a part up by is never the
name under which `PutObjectPart` stored it: for every key and part number the
looked-up name is the stored name with `%!i(int=` put before the number and `)`
after it, and it differs from the stored name of every part of every key,
since it holds the character `%`. -/
theorem c14_lookup_name_differs (object : GoString) (n : Int) :
    completePartName object n =
      getMD5Hash object ++ "_".toList ++ "%!i(int=".toList ++ strconvItoa n ++ ")".toList ∧
    partObjName object n = getMD5Hash object ++ "_".toList ++ strconvItoa n ∧
    completePartName object n ≠ partObjName object n ∧
    ∀ (object' : GoString) (n' : Int), completePartName object n ≠ partObjName object' n' := by
  have hall : ∀ (object' : GoString) (n' : Int),
      completePartName object n ≠ partObjName object' n' := by
    intro object' n' heq
    have hmem : '%' ∈ completePartName object n := by
      simp [completePartName]
    rw [heq] at hmem
    exact percent_not_mem_partObjName object' n' hmem
  exact ⟨rfl, rfl, hall object n, hall⟩


/-! ## Common prefixes and the max-key cap -/

theorem listObjectsLoop_count (x : Extern) (bucket pfx marker delimiter : GoString)
    (maxKeys : Int) (rows : List Row) (acc : ListAcc)
    (hacc : (acc.objects.length : Int) ≤ maxKeys) :
    ((listObjectsLoop x bucket pfx marker delimiter maxKeys rows acc).objects.length : Int)
      ≤ maxKeys := by
  induction rows generalizing acc with
  | nil => exact hacc
  | cons blob rest ih =>
    simp only [listObjectsLoop]
    split_ifs with hcap
    · exact hacc
    · apply ih
      rcases listObjectsRow_cases x bucket pfx marker delimiter blob acc with ⟨cp, h⟩ | h | ⟨h, _⟩
      · rw [h]; exact hacc
      · rw [h]; exact hacc
      · rw [h]
        simp only [List.length_append, List.length_singleton, Nat.cast_add, Nat.cast_one]
        omega

theorem listObjectsLoop_commonPrefixes_cap_mono (x : Extern)
    (bucket pfx marker delimiter : GoString) (m m' : Int) (hle : m ≤ m') (rows : List Row)
    (acc : ListAcc) :
    ∀ k ∈ (listObjectsLoop x bucket pfx marker delimiter m rows acc).commonPrefixes,
      k ∈ (listObjectsLoop x bucket pfx marker delimiter m' rows acc).commonPrefixes := by
  induction rows generalizing acc with
  | nil => intro k hk; exact hk
  | cons blob rest ih =>
    intro k hk
    simp only [listObjectsLoop] at hk ⊢
    by_cases hcap : (acc.objects.length : Int) ≥ m
    · rw [if_pos hcap] at hk
      by_cases hcap' : (acc.objects.length : Int) ≥ m'
      · rw [if_pos hcap']; exact hk
      · rw [if_neg hcap']
        apply listObjectsLoop_commonPrefixes_mono
        rcases listObjectsRow_cases x bucket pfx marker delimiter blob acc with
          ⟨cp, h⟩ | h | ⟨h, _⟩
        · rw [h]
          simp only [setInsert]
          split_ifs
          · exact hk
          · exact List.mem_append_left _ hk
        · rw [h]; exact hk
        · rw [h]; exact hk
    · rw [if_neg hcap] at hk
      rw [if_neg (by omega)]
      exact ih _ k hk

theorem listObjectsLoop_cap_not_reached (x : Extern) (bucket pfx marker delimiter : GoString)
    (m m' : Int) (hle : m ≤ m') (rows : List Row) (acc : ListAcc)
    (h : ((listObjectsLoop x bucket pfx marker delimiter m rows acc).objects.length : Int) < m) :
    listObjectsLoop x bucket pfx marker delimiter m' rows acc =
      listObjectsLoop x bucket pfx marker delimiter m rows acc := by
  induction rows generalizing acc with
  | nil => rfl
  | cons blob rest ih =>
    simp only [listObjectsLoop] at h ⊢
    by_cases hcap : (acc.objects.length : Int) ≥ m
    · rw [if_pos hcap] at h
      omega
    · rw [if_neg hcap] at h
      rw [if_neg hcap, if_neg (by omega)]
      exact ih _ h

theorem listObjectsLoop_stop (x : Extern) (bucket pfx marker delimiter : GoString) (m : Int)
    (pre post : List Row) (acc : ListAcc)
    (h : m ≤ ((listObjectsLoop x bucket pfx marker delimiter m pre acc).objects.length : Int)) :
    listObjectsLoop x bucket pfx marker delimiter m (pre ++ post) acc =
      listObjectsLoop x bucket pfx marker delimiter m pre acc := by
  induction pre generalizing acc with
  | nil =>
    simp only [listObjectsLoop] at h
    cases post with
    | nil => rfl
    | cons b post => simp only [List.nil_append, listObjectsLoop, if_pos (ge_iff_le.2 h)]
  | cons blob pre ih =>
    rw [List.cons_append]
    by_cases hcap : (acc.objects.length : Int) ≥ m
    · rw [listObjectsLoop, if_pos hcap, listObjectsLoop, if_pos hcap]
    · rw [listObjectsLoop, if_neg hcap] at h
      rw [listObjectsLoop, if_neg hcap, listObjectsLoop, if_neg hcap]
      exact ih _ h

/-- The row loop takes nothing from its surroundings but the MIME table, for
the content type of an object: two calls with the same MIME table run the same
loop, whatever their map orders. -/
theorem listObjectsLoop_congr (x x' : Extern)
    (hmime : x'.mimeTypeByExtension = x.mimeTypeByExtension)
    (bucket pfx marker delimiter : GoString) (m : Int) (rows : List Row) (acc : ListAcc) :
    listObjectsLoop x' bucket pfx marker delimiter m rows acc =
      listObjectsLoop x bucket pfx marker delimiter m rows acc := by
  have hrow : ∀ blob a, listObjectsRow x' bucket pfx marker delimiter blob a =
      listObjectsRow x bucket pfx marker delimiter blob a := by
    intro blob a
    simp only [listObjectsRow, getMime, hmime]
  induction rows generalizing acc with
  | nil => rfl
  | cons blob rest ih =>
    simp only [listObjectsLoop, hrow, ih]

/-- C15 (amended). Common prefixes do not count toward the max-key cap, but the
row loop stops at the first row reached once max-key-count objects are
collected, so the rows from there on contribute neither objects nor common
prefixes.  For two calls on the same rows with max key counts `m <= m'`, each
with its own map order:
every common prefix returned for `m` is returned for `m'`;
when fewer than `m` objects are returned for `m`, the call for `m'` returns the
same objects and the same set of common prefixes;
for a non-negative `m` the number of objects returned never exceeds `m`;
and whenever a leading part `pre` of the rows, listed alone with max key count
`m`, already yields `m` objects, the listing of all the rows returns the objects
and the set of common prefixes of the listing of `pre`. -/
theorem c15_commonPrefixes_and_cap (x x' : Extern) (rows : List Row)
    (bucket pfx marker delimiter : GoString) (m m' : Int)
    (hmime : x'.mimeTypeByExtension = x.mimeTypeByExtension) (hle : m ≤ m') :
    ∃ res res', ListObjects x (some rows) bucket pfx marker delimiter m = Except.ok res ∧
      ListObjects x' (some rows) bucket pfx marker delimiter m' = Except.ok res' ∧
      (∀ k ∈ res.Prefixes, k ∈ res'.Prefixes) ∧
      ((res.Objects.length : Int) < m →
        res'.Objects = res.Objects ∧ ∀ k, k ∈ res'.Prefixes ↔ k ∈ res.Prefixes) ∧
      (0 ≤ m → (res.Objects.length : Int) ≤ m) ∧
      (∀ (pre post : List Row) (resPre : ListObjectsInfo), rows = pre ++ post →
        ListObjects x' (some pre) bucket pfx marker delimiter m = Except.ok resPre →
        m ≤ (resPre.Objects.length : Int) →
        res.Objects = resPre.Objects ∧ ∀ k, k ∈ res.Prefixes ↔ k ∈ resPre.Prefixes) := by
  refine ⟨_, _, rfl, rfl, ?_, ?_, ?_, ?_⟩
  · intro k hk
    simp only [mem_listObjectsPrefixes] at hk ⊢
    refine ⟨?_, hk.2⟩
    rw [listObjectsLoop_congr x x' hmime]
    exact listObjectsLoop_commonPrefixes_cap_mono x bucket pfx marker delimiter m m' hle rows _
      k hk.1
  · intro h
    have := listObjectsLoop_cap_not_reached x bucket pfx marker delimiter m m' hle rows ⟨[], []⟩ h
    simp only [mem_listObjectsPrefixes, listObjectsLoop_congr x x' hmime, this, implies_true,
      and_self]
  · intro h0
    exact listObjectsLoop_count x bucket pfx marker delimiter m rows ⟨[], []⟩ (by simpa using h0)
  · intro pre post resPre hsplit hpre hfull
    simp only [ListObjects, Except.ok.injEq] at hpre
    subst hpre hsplit
    simp only [listObjectsLoop_congr x x' hmime] at hfull ⊢
    have := listObjectsLoop_stop x bucket pfx marker delimiter m pre post ⟨[], []⟩ hfull
    simp only [mem_listObjectsPrefixes, this, implies_true, and_self]

set_option maxRecDepth 100000 in
/-- C15 (amended), at a concrete listing.  Keys `a/x`, `b/x`, `c`, `d/x` listed
with delimiter `/` and max key count 1: the object `c` and the two common
prefixes `a/` and `b/` are returned, more prefixes than the cap, and `d/` is
not, since `d/x` comes after the row at which the cap was reached.  The second
call, with max key count 5, ranges over its map in the reverse order. -/
theorem c15_commonPrefixes_and_cap_witness :
    (ListObjects sampleExtern
      (some [sampleRow "b1".toList "a/x".toList "1".toList,
        sampleRow "b1".toList "b/x".toList "2".toList,
        sampleRow "b1".toList "c".toList "3".toList,
        sampleRow "b1".toList "d/x".toList "4".toList])
      "b1".toList [] [] "/".toList 1).toOption.map
        (fun r => (r.Objects.map fun o => o.Name, r.Prefixes.length,
          decide ("a/".toList ∈ r.Prefixes), decide ("b/".toList ∈ r.Prefixes),
          decide ("d/".toList ∈ r.Prefixes))) =
      some (["c".toList], 2, true, true, false) ∧
    ∃ res res', ListObjects sampleExtern
        (some [sampleRow "b1".toList "a/x".toList "1".toList,
          sampleRow "b1".toList "b/x".toList "2".toList,
          sampleRow "b1".toList "c".toList "3".toList,
          sampleRow "b1".toList "d/x".toList "4".toList])
        "b1".toList [] [] "/".toList 1 = Except.ok res ∧
      ListObjects sampleExternReversed
        (some [sampleRow "b1".toList "a/x".toList "1".toList,
          sampleRow "b1".toList "b/x".toList "2".toList,
          sampleRow "b1".toList "c".toList "3".toList,
          sampleRow "b1".toList "d/x".toList "4".toList])
        "b1".toList [] [] "/".toList 5 = Except.ok res' ∧
      (∀ k ∈ res.Prefixes, k ∈ res'.Prefixes) ∧
      ((res.Objects.length : Int) < 1 →
        res'.Objects = res.Objects ∧ ∀ k, k ∈ res'.Prefixes ↔ k ∈ res.Prefixes) ∧
      ((0 : Int) ≤ 1 → (res.Objects.length : Int) ≤ 1) ∧
      (∀ (pre post : List Row) (resPre : ListObjectsInfo),
        [sampleRow "b1".toList "a/x".toList "1".toList,
          sampleRow "b1".toList "b/x".toList "2".toList,
          sampleRow "b1".toList "c".toList "3".toList,
          sampleRow "b1".toList "d/x".toList "4".toList] = pre ++ post →
        ListObjects sampleExternReversed (some pre) "b1".toList [] [] "/".toList 1 =
          Except.ok resPre →
        (1 : Int) ≤ (resPre.Objects.length : Int) →
        res.Objects = resPre.Objects ∧ ∀ k, k ∈ res.Prefixes ↔ k ∈ resPre.Prefixes) :=
  ⟨by decide,
   c15_commonPrefixes_and_cap sampleExtern sampleExternReversed
    [sampleRow "b1".toList "a/x".toList "1".toList,
      sampleRow "b1".toList "b/x".toList "2".toList,
      sampleRow "b1".toList "c".toList "3".toList,
      sampleRow "b1".toList "d/x".toList "4".toList]
    "b1".toList [] [] "/".toList 1 5 rfl (by decide)⟩

set_option maxRecDepth 100000 in
/-- C15 as stated fails.  Keys `a`, `b/c` listed with delimiter `/`: with max
key count 1 the loop stops once `a` is collected and no common prefix is
returned, with max key count 2 the common prefix `b/` is returned.  With max key
count -1 the zero objects returned exceed the max key count. -/
theorem c15_counterexample_cap_cuts_prefixes :
    ListObjects sampleExtern
      (some [sampleRow "b1".toList "a".toList "1".toList,
        sampleRow "b1".toList "b/c".toList "2".toList])
      "b1".toList [] [] "/".toList 1 =
      Except.ok { IsTruncated := false, NextMarker := [],
                  Objects := [rowObject sampleExtern "b1".toList
                    (sampleRow "b1".toList "a".toList "1".toList)],
                  Prefixes := [] } ∧
    ListObjects sampleExtern
      (some [sampleRow "b1".toList "a".toList "1".toList,
        sampleRow "b1".toList "b/c".toList "2".toList])
      "b1".toList [] [] "/".toList 2 =
      Except.ok { IsTruncated := false, NextMarker := [],
                  Objects := [rowObject sampleExtern "b1".toList
                    (sampleRow "b1".toList "a".toList "1".toList)],
                  Prefixes := ["b/".toList] } ∧
    ListObjects sampleExtern
      (some [sampleRow "b1".toList "a".toList "1".toList,
        sampleRow "b1".toList "b/c".toList "2".toList])
      "b1".toList [] [] "/".toList (-1) =
      Except.ok { IsTruncated := false, NextMarker := [], Objects := [], Prefixes := [] } := by
  decide


/-! ## Paging through the parts of an upload -/

theorem skipToMarker_append (m : Int) (init l : List PartInfo) (i : Nat)
    (h : ∀ q ∈ init, q.PartNumber ≠ m) :
    skipToMarker m (init ++ l) i = skipToMarker m l (i + init.length) := by
  induction init generalizing i with
  | nil => rfl
  | cons q init ih =>
    have hq : q.PartNumber ≠ m := h q (List.mem_cons_self _ _)
    rw [List.cons_append, skipToMarker, if_neg hq,
      ih (i + 1) (fun r hr => h r (List.mem_cons_of_mem _ hr)), List.length_cons]
    congr 1
    omega

/-- In a strictly ascending list, the marker loop run with the number of the
last part of `done` stops right after `done`. -/
theorem skipToMarker_after_done (done rest : List PartInfo) (p : PartInfo)
    (hs : (done ++ rest).Pairwise fun a b => a.PartNumber < b.PartNumber)
    (hlast : done.getLast? = some p) :
    skipToMarker p.PartNumber (done ++ rest) 0 = done.length := by
  obtain ⟨init, hinit⟩ := List.getLast?_eq_some_iff.1 hlast
  subst hinit
  rw [List.append_assoc] at hs ⊢
  have hne : ∀ q ∈ init, q.PartNumber ≠ p.PartNumber := by
    intro q hq
    have := (List.pairwise_append.1 hs).2.2 q hq p (by simp)
    omega
  rw [skipToMarker_append _ _ _ _ hne]
  simp [skipToMarker]

theorem listObjectParts_eq (s : Backend) (rows : List Row) (bucket object uploadID : GoString)
    (partNumberMarker maxParts : Int)
    (hexists : (s.lookup (sideObjectPath s.root bucket object uploadID)).isSome = true) :
    ListObjectParts s (some rows) bucket object uploadID partNumberMarker maxParts =
      (listPartsOfRows rows bucket object uploadID partNumberMarker maxParts,
       s.log (BackendCall.dataObject (sideObjectPath s.root bucket object uploadID))) := by
  unfold ListObjectParts
  rw [checkUploadIDExists_eq, if_pos hexists]

theorem pageThrough_from (rows : List Row) (bucket object uploadID : GoString) (maxParts : Int)
    (hrows : ∀ r ∈ rows, (rowPart r).isSome = true)
    (hnz : ∀ p ∈ referenceParts (rows.filterMap rowPart), p.PartNumber ≠ 0)
    (hmax : 1 ≤ maxParts) (fuel : Nat) :
    ∀ (s : Backend) (marker : Int) (done rest : List PartInfo),
      (s.lookup (sideObjectPath s.root bucket object uploadID)).isSome = true →
      referenceParts (rows.filterMap rowPart) = done ++ rest →
      ((done = [] ∧ marker = 0) ∨ ∃ p, done.getLast? = some p ∧ marker = p.PartNumber) →
      rest.length < fuel →
      ∃ pages, pageThrough rows bucket object uploadID maxParts fuel s marker = some pages ∧
        pages.flatten = rest := by
  induction fuel with
  | zero => intro s marker done rest _ _ _ hf; omega
  | succ fuel ih =>
    intro s marker done rest hex hparts hmarker hfuel
    obtain ⟨res, h1, h2, h3, h4, _⟩ :=
      listPartsOfRows_spec rows bucket object uploadID marker maxParts hrows
    have hstrict := referenceParts_strict (rows.filterMap rowPart)
    have hi0 : (if marker ≠ 0 then
        skipToMarker marker (referenceParts (rows.filterMap rowPart)) 0 else 0) = done.length := by
      rcases hmarker with ⟨hd, hm⟩ | ⟨p, hp, hm⟩
      · simp [hd, hm]
      · have hpmem : p ∈ referenceParts (rows.filterMap rowPart) := by
          rw [hparts]
          exact List.mem_append_left _ (List.mem_of_getLast?_eq_some hp)
        have hmz : marker ≠ 0 := hm ▸ hnz p hpmem
        rw [if_pos hmz, hm, hparts]
        rw [hparts] at hstrict
        exact skipToMarker_after_done done rest p hstrict hp
    rw [hi0] at h2 h3
    have hdrop : (referenceParts (rows.filterMap rowPart)).drop done.length = rest := by
      rw [hparts]
      simp
    rw [hdrop] at h2
    have hlenparts : (referenceParts (rows.filterMap rowPart)).length =
        done.length + rest.length := by
      rw [hparts, List.length_append]
    rw [hlenparts] at h3
    have hk : 1 ≤ maxParts.toNat := by omega
    rw [pageThrough, listObjectParts_eq s rows bucket object uploadID marker maxParts hex, h1]
    simp only
    by_cases htr : res.IsTruncated = true
    · rw [if_pos htr]
      have hlt : res.Parts.length < rest.length := by
        have := h3.1 htr
        omega
      have hklt : maxParts.toNat < rest.length := by
        rw [h2, List.length_take] at hlt
        omega
      have hplen : res.Parts.length = maxParts.toNat := by
        rw [h2, List.length_take]
        omega
      have hpne : res.Parts ≠ [] := by
        intro e
        rw [e] at hplen
        simp at hplen
        omega
      have hlast : res.Parts.getLast? = some (res.Parts.getLast hpne) :=
        List.getLast?_eq_getLast _ hpne
      have hnext : res.NextPartNumberMarker = (res.Parts.getLast hpne).PartNumber := by
        rw [h4, if_pos htr, hlast]
      have hrest : rest = res.Parts ++ rest.drop maxParts.toNat := by
        rw [h2, List.take_append_drop]
      obtain ⟨pages, hp1, hp2⟩ := ih
        (s.log (BackendCall.dataObject (sideObjectPath s.root bucket object uploadID)))
        res.NextPartNumberMarker (done ++ res.Parts) (rest.drop maxParts.toNat) hex
        (by rw [List.append_assoc, ← hrest]; exact hparts)
        (Or.inr ⟨res.Parts.getLast hpne, by
          rw [List.getLast?_append, hlast]
          rfl, hnext⟩)
        (by rw [List.length_drop]; omega)
      refine ⟨res.Parts :: pages, by rw [hp1]; rfl, ?_⟩
      rw [List.flatten_cons, hp2]
      exact hrest.symm
    · rw [if_neg htr]
      refine ⟨[res.Parts], rfl, ?_⟩
      have hge : ¬ (done.length + res.Parts.length < done.length + rest.length) :=
        fun h => htr (h3.2 h)
      have hall : rest.length ≤ maxParts.toNat := by
        rw [h2, List.length_take] at hge
        omega
      simp only [List.flatten_cons, List.flatten_nil, List.append_nil]
      rw [h2, List.take_of_length_le hall]

theorem pageThrough_succ (rows : List Row) (bucket object uploadID : GoString) (maxParts : Int)
    (fuel : Nat) :
    ∀ (s : Backend) (marker : Int) (pages : List (List PartInfo)),
      pageThrough rows bucket object uploadID maxParts fuel s marker = some pages →
      pageThrough rows bucket object uploadID maxParts (fuel + 1) s marker = some pages := by
  induction fuel with
  | zero => intro s marker pages h; simp [pageThrough] at h
  | succ fuel ih =>
    intro s marker pages h
    rw [pageThrough] at h ⊢
    cases hcall : ListObjectParts s (some rows) bucket object uploadID marker maxParts with
    | mk r s1 =>
      rw [hcall] at h
      cases r with
      | error e => simp at h
      | ok res =>
        simp only at h ⊢
        by_cases htr : res.IsTruncated = true
        · rw [if_pos htr] at h ⊢
          cases hrec : pageThrough rows bucket object uploadID maxParts fuel s1
              res.NextPartNumberMarker with
          | none => rw [hrec] at h; simp at h
          | some ps =>
            rw [hrec] at h
            rw [ih s1 _ ps hrec]
            exact h
        · rw [if_neg htr] at h ⊢
          exact h

theorem pageThrough_mono (rows : List Row) (bucket object uploadID : GoString) (maxParts : Int)
    (fuel fuel' : Nat) (hle : fuel ≤ fuel') (s : Backend) (marker : Int)
    (pages : List (List PartInfo))
    (h : pageThrough rows bucket object uploadID maxParts fuel s marker = some pages) :
    pageThrough rows bucket object uploadID maxParts fuel' s marker = some pages := by
  induction fuel' with
  | zero =>
    have : fuel = 0 := by omega
    rw [this] at h
    exact h
  | succ fuel' ih =>
    by_cases he : fuel = fuel' + 1
    · rw [← he]; exact h
    · exact pageThrough_succ rows bucket object uploadID maxParts fuel' s marker pages
        (ih (by omega))

/-- C16. Paging through `ListObjectParts` is lossless.  For an existing upload
whose stored parts have non-zero part numbers and for `maxParts >= 1`, the
client that starts at marker 0 and calls again with each `NextPartNumberMarker`
while the result is truncated stops after at most one call more than there are
parts, and the pages it received, put end to end, are the de-duplicated list of
parts in ascending part-number order, each part exactly once. -/
theorem c16_paging_lossless (s : Backend) (rows : List Row) (bucket object uploadID : GoString)
    (maxParts : Int)
    (hexists : (checkUploadIDExists s bucket object uploadID).1 = none)
    (hrows : ∀ r ∈ rows, (rowPart r).isSome = true)
    (hnz : ∀ p ∈ referenceParts (rows.filterMap rowPart), p.PartNumber ≠ 0)
    (hmax : 1 ≤ maxParts) :
    ∃ pages,
      (∀ fuel, (referenceParts (rows.filterMap rowPart)).length < fuel →
        pageThrough rows bucket object uploadID maxParts fuel s 0 = some pages) ∧
      pages.flatten = referenceParts (rows.filterMap rowPart) ∧
      pages.flatten.Nodup ∧
      pages.flatten.Pairwise (fun a b => a.PartNumber < b.PartNumber) := by
  have hex : (s.lookup (sideObjectPath s.root bucket object uploadID)).isSome = true := by
    rw [checkUploadIDExists_eq] at hexists
    by_contra hno
    rw [if_neg hno] at hexists
    simp at hexists
  obtain ⟨pages, hp1, hp2⟩ := pageThrough_from rows bucket object uploadID maxParts hrows hnz hmax
    ((referenceParts (rows.filterMap rowPart)).length + 1) s 0 []
    (referenceParts (rows.filterMap rowPart)) hex rfl (Or.inl ⟨rfl, rfl⟩) (by omega)
  have hstrict := referenceParts_strict (rows.filterMap rowPart)
  refine ⟨pages, ?_, hp2, ?_, ?_⟩
  · intro fuel hfuel
    exact pageThrough_mono rows bucket object uploadID maxParts _ fuel (by omega) s 0 pages hp1
  · rw [hp2]
    exact hstrict.imp (fun h e => by rw [e] at h; exact lt_irrefl _ h)
  · rw [hp2]
    exact hstrict


set_option maxRecDepth 100000 in
/-- C16, at a concrete upload: rows for parts 3, 1, 3 (again) and 2 paged with
`maxParts = 2` give the pages `[1, 2]` and `[3]`. -/
theorem c16_paging_lossless_witness :
    (pageThrough
      [samplePartRow "h".toList 3 "1".toList, samplePartRow "h".toList 1 "2".toList,
        samplePartRow "h".toList 3 "7".toList, samplePartRow "h".toList 2 "5".toList]
      "b1".toList "big.bin".toList sampleUploadID 2 4 sampleInitiated 0).map
        (fun pages => pages.map fun page => page.map fun p => (p.PartNumber, p.Size)) =
      some [[(1, 2), (2, 5)], [(3, 7)]] ∧
    ∃ pages,
      (∀ fuel, (referenceParts
          ([samplePartRow "h".toList 3 "1".toList, samplePartRow "h".toList 1 "2".toList,
            samplePartRow "h".toList 3 "7".toList,
            samplePartRow "h".toList 2 "5".toList].filterMap rowPart)).length < fuel →
        pageThrough
          [samplePartRow "h".toList 3 "1".toList, samplePartRow "h".toList 1 "2".toList,
            samplePartRow "h".toList 3 "7".toList, samplePartRow "h".toList 2 "5".toList]
          "b1".toList "big.bin".toList sampleUploadID 2 fuel sampleInitiated 0 = some pages) ∧
      pages.flatten = referenceParts
        ([samplePartRow "h".toList 3 "1".toList, samplePartRow "h".toList 1 "2".toList,
          samplePartRow "h".toList 3 "7".toList,
          samplePartRow "h".toList 2 "5".toList].filterMap rowPart) ∧
      pages.flatten.Nodup ∧
      pages.flatten.Pairwise (fun a b => a.PartNumber < b.PartNumber) :=
  ⟨by decide,
   c16_paging_lossless sampleInitiated
    [samplePartRow "h".toList 3 "1".toList, samplePartRow "h".toList 1 "2".toList,
      samplePartRow "h".toList 3 "7".toList, samplePartRow "h".toList 2 "5".toList]
    "b1".toList "big.bin".toList sampleUploadID 2 (by decide) (by decide) (by decide)
    (by decide)⟩

end Irods
